import Mathlib

/-!
# gotrix command-line tool: a shallow embedding of `cmd/gotrix/gotrix.go`

Go strings are byte sequences, so a string is a list of bytes and `len` is the
length of that list.  The operating system (home directory, `filepath.Abs`,
`filepath.Join`, the entries `filepath.Walk` visits, the outcome of every
subprocess) is an explicit environment value.  What the program does to the
outside world (writes to standard output and standard error, subprocesses it
starts) is recorded as a list of events, together with how control ends:
normal return, `os.Exit` with a code, or a run-time panic.

`main` takes the command line `os.Args[1:]`.  The call `fs.Parse` is embedded
from the Go standard library's `flag` package as `main` configures it:
`flag.ContinueOnError`, `fs.Usage = usage`, output on standard error, and the
error `Parse` returns dropped by `main`.
-/

namespace Gotrix

/-! ## Strings -/

/-- A Go string: an immutable sequence of bytes. -/
abbrev GoString := List UInt8

/-- The bytes (UTF-8) of a string literal of the source. -/
def str (s : String) : GoString := s.data.flatMap String.utf8EncodeChar

/-- Cut a byte sequence at every byte satisfying `isSep`; the result always has
one more piece than there are separators. -/
def splitOn (isSep : UInt8 → Bool) : GoString → List GoString
  | [] => [[]]
  | c :: cs =>
    if isSep c then [] :: splitOn isSep cs
    else match splitOn isSep cs with
      | [] => [[c]]
      | w :: ws => (c :: w) :: ws

/-- Go `strings.Split(s, sep)` for a separator of one byte. -/
def Split (s : GoString) (sep : UInt8) : List GoString := splitOn (· == sep) s

/-- Go `strings.Join(elems, sep)`. -/
def Join (elems : List GoString) (sep : GoString) : GoString := sep.intercalate elems

/-- Go `strings.TrimLeft(s, cutset)` for a cutset of one byte. -/
def TrimLeft (s : GoString) (cut : UInt8) : GoString := s.dropWhile (· == cut)

/-- Go `strings.TrimRight(s, cutset)` for a cutset of one byte. -/
def TrimRight (s : GoString) (cut : UInt8) : GoString :=
  (s.reverse.dropWhile (· == cut)).reverse

/-- Go `strings.Trim(s, cutset)` for a cutset of one byte. -/
def Trim (s : GoString) (cut : UInt8) : GoString := TrimRight (TrimLeft s cut) cut

/-- Go `strings.HasPrefix(s, p)`. -/
def HasPrefix (s p : GoString) : Bool := p.isPrefixOf s

/-- Go `strings.HasSuffix(s, p)`. -/
def HasSuffix (s p : GoString) : Bool := p.isSuffixOf s

/-- Go `strings.TrimPrefix(s, p)`. -/
def TrimPrefix (s p : GoString) : GoString :=
  if HasPrefix s p then s.drop p.length else s

/-- Go `strings.TrimSuffix(s, p)`. -/
def TrimSuffix (s p : GoString) : GoString :=
  if HasSuffix s p then s.take (s.length - p.length) else s

/-- The `%d` rendering of a non-negative integer. -/
def itoa (n : Nat) : GoString := (Nat.toDigits 10 n).flatMap String.utf8EncodeChar

/-! ## `makeDesc` -/

/-- The width the help text is wrapped to. -/
def descWidth : Nat := 60

/-- The separator `makeDesc` joins its lines with: a newline and eight spaces. -/
def lineBreak : GoString := str "\n        "

/-- One iteration of the loop of `makeDesc` over the state `(res, line)`.
`none` is the index-out-of-range panic of `res[line]`. -/
def makeDescStep (st : List GoString × Nat) (p : GoString) : Option (List GoString × Nat) :=
  match st.1.get? st.2 with
  | none => none
  | some cur =>
    if (cur ++ str " " ++ p).length ≤ descWidth then
      if cur = [] then some (st.1.set st.2 (cur ++ p), st.2)
      else some (st.1.set st.2 (cur ++ (str " " ++ p)), st.2)
    else
      match st.1.get? (st.2 + 1) with
      | none => none
      | some nxt => some (st.1.set (st.2 + 1) (nxt ++ p), st.2 + 1)

/-- The words `makeDesc` iterates over: `strings.Split(strings.Trim(s, " "), " ")`. -/
def makeDescParts (s : GoString) : List GoString := Split (Trim s 32) 32

/-- The line buffer `makeDesc` allocates.  `len(s)/60` is an integer division, so
`math.Ceil(float64(len(s)/60))` is that integer again. -/
def makeDescBuffer (s : GoString) : List GoString :=
  List.replicate (s.length / descWidth + 1) []

/-- The slice `ret` of `makeDesc`: the non-empty entries of the line buffer after
the loop, or `none` when the loop panics. -/
def makeDescLines (s : GoString) : Option (List GoString) :=
  ((makeDescParts s).foldlM makeDescStep (makeDescBuffer s, 0)).map
    (fun st => st.1.filter (· ≠ []))

/-- The function `makeDesc`; `none` is the index-out-of-range panic. -/
def makeDesc (s : GoString) : Option GoString :=
  (makeDescLines s).map (fun ret => Join ret lineBreak)

/-- The non-empty space-separated words of a string. -/
def spaceWords (s : GoString) : List GoString := (Split s 32).filter (· ≠ [])

/-- The non-empty words of a string when both the space and the newline
separate words. -/
def blankWords (s : GoString) : List GoString :=
  (splitOn (fun c => c == 32 || c == 10) s).filter (· ≠ [])

/-! ## Data model -/

/-- A Go `error` value: its message and whether `os.IsNotExist` holds of it. -/
structure GoError where
  msg : GoString
  notExist : Bool
deriving DecidableEq

deriving instance DecidableEq for Except

/-- An error made by `fmt.Errorf` without a wrapping verb. -/
def Errorf (msg : GoString) : GoError := ⟨msg, false⟩

/-- The record `flags` (the global `in`), as `fs.Parse` leaves it. -/
structure flags where
  noColor : Bool
  quiet : Bool
  help : Bool
  path : GoString
deriving DecidableEq

/-- The global `in` before `fs.Parse`: every flag at its default. -/
def noFlags : flags := ⟨false, false, false, []⟩

/-- The type `color`. -/
abbrev color := GoString

def Black : color := str "\x1b[30m"
def Red : color := str "\x1b[31m"
def Green : color := str "\x1b[32m"
def Yellow : color := str "\x1b[33m"
def Blue : color := str "\x1b[34m"
def Reset : color := str "\x1b[0m"

/-- The method `color.SPrint`.  `fmt.Sprint` puts no space between operands of
string kind, so the result is the plain concatenation. -/
def SPrint (in_ : flags) (c : color) (s : GoString) : GoString :=
  if in_.noColor then s else c ++ s ++ Reset

/-- The global `appName`, as `main` sets it. -/
def appName : GoString := str "gotrix"

/-- The file type bits of an `os.FileMode`. -/
inductive FileType
  | regular | dir | symlink | namedPipe | socket | device | charDevice | irregular
deriving DecidableEq

/-- What the embedding needs of an `os.FileInfo`. -/
structure FileInfo where
  Name : GoString
  typ : FileType
deriving DecidableEq

/-- The method `FileInfo.IsDir`. -/
def FileInfo.IsDir (info : FileInfo) : Bool := info.typ == FileType.dir

/-- The method `FileMode.IsRegular` on the mode of the entry. -/
def FileInfo.IsRegular (info : FileInfo) : Bool := info.typ == FileType.regular

/-- One call `filepath.Walk` makes to its callback: either an entry whose
`Lstat` (and, for a directory, whose listing) succeeded, passed with a nil error,
or a path passed with the error met there (with the directory's info after a
failed listing, with nil info after a failed `Lstat`). -/
inductive Visit
  | entry (path : GoString) (info : FileInfo)
  | failed (path : GoString) (info : Option FileInfo) (err : GoError)
deriving DecidableEq

/-- An `exec.Cmd` as the program builds it; `dir = ""` is the current directory. -/
structure Cmd where
  name : GoString
  args : List GoString
  dir : GoString
deriving DecidableEq

/-- The outcome of `cmd.Run()`: the error, if any, and the combined output the
buffer captured. -/
structure ExecResult where
  err : Option GoError
  output : GoString

/-- The operating system as the program sees it, and the library function
`strconv.Quote` (the `%q` verb), which is left uninterpreted. -/
structure Env where
  UserHomeDir : Except GoError GoString
  Abs : GoString → Except GoError GoString
  JoinPath : GoString → GoString → GoString
  Walk : GoString → List Visit
  Run : Cmd → ExecResult
  Quote : GoString → GoString

/-- What the program does to the outside world. -/
inductive Event
  | stdout (s : GoString)
  | stderr (s : GoString)
  | exec (c : Cmd)
deriving DecidableEq

/-- How a computation ends: it returns a value, calls `os.Exit`, or panics. -/
inductive Ctl (α : Type)
  | ret (a : α)
  | exit (code : Nat)
  | panic
deriving DecidableEq

/-- A computation of the program: the events it produced and how it ended. -/
structure Proc (α : Type) where
  events : List Event
  ctl : Ctl α

/-- Sequencing: the continuation runs only after a normal return. -/
def Proc.bind {α β : Type} (m : Proc α) (f : α → Proc β) : Proc β :=
  match m.ctl with
  | .ret a => ⟨m.events ++ (f a).events, (f a).ctl⟩
  | .exit c => ⟨m.events, .exit c⟩
  | .panic => ⟨m.events, .panic⟩

instance : Monad Proc where
  pure a := ⟨[], .ret a⟩
  bind := Proc.bind

/-- The subprocesses a computation started, in order. -/
def Proc.execs {α : Type} (m : Proc α) : List Cmd :=
  m.events.filterMap (fun e => match e with | .exec c => some c | _ => none)

/-- Everything a computation wrote to standard output or standard error. -/
def Proc.printed {α : Type} (m : Proc α) : List GoString :=
  m.events.filterMap (fun e =>
    match e with | .stdout s => some s | .stderr s => some s | .exec _ => none)

/-- The exit status of the process when `main` ends this way: 0 on return, the
code given to `os.Exit`, 2 after a panic. -/
def Proc.exitCode (m : Proc Unit) : Nat :=
  match m.ctl with
  | .ret _ => 0
  | .exit c => c
  | .panic => 2

/-- A write to `os.Stdout` through `fprintf`, the format already expanded. -/
def printOut (s : GoString) : Proc Unit := ⟨[.stdout s], .ret ()⟩

/-- A write to `os.Stderr` through `fprintf`, the format already expanded. -/
def printErr (s : GoString) : Proc Unit := ⟨[.stderr s], .ret ()⟩

/-- The call `os.Exit(code)`. -/
def Exit {α : Type} (code : Nat) : Proc α := ⟨[], .exit code⟩

/-- The call `cmd.Run()`. -/
def runCmd (env : Env) (c : Cmd) : Proc ExecResult := ⟨[.exec c], .ret (env.Run c)⟩

/-- The result of `makeDesc` inside a computation: a panic ends it. -/
def descOrPanic (s : GoString) : Proc GoString :=
  match makeDesc s with
  | some r => pure r
  | none => ⟨[], .panic⟩

/-- The call `fs.Arg(i)`: the i-th positional argument, or the empty string. -/
def Arg (args : List GoString) (i : Nat) : GoString := args.getD i []

/-! ## Output -/

/-- The function `echo`, its format already expanded to `msg`. -/
def echo (in_ : flags) (dot : color) (msg : GoString) : Proc Unit :=
  if !in_.quiet then
    printOut (SPrint in_ dot (str "*") ++ str " " ++ msg ++ str "\n")
  else pure ()

/-- The function `echoErr`: it never returns. -/
def echoErr {α : Type} (in_ : flags) (err : GoError) : Proc α := do
  if !in_.quiet then
    printOut (SPrint in_ Red (str "* Error: ") ++ str " " ++ err.msg ++ str "\n")
  Exit 1

/-- The function `multiSuffix`. -/
def multiSuffix (l : Nat) (s : GoString) : GoString :=
  if l = 1 then s else s ++ str "s"

/-- Name and description of the entries of the table `commands`, in order. -/
def commandDescs : List (GoString × GoString) :=
  [ (str "create-app", str "Create a new application."),
    (str "create-component", str "Create a new component."),
    (str "build-components",
      str "Build components so files. Path can be modified by -path option. The defaut is \"./components\".") ]

/-- Name and usage text of the flags `main` registers, in the order
`fs.VisitAll` visits them (sorted by name).  No usage text holds a back-quoted
name, so `flag.UnquoteUsage` returns it unchanged. -/
def flagUsages : List (GoString × GoString) :=
  [ (str "help", str "Show this help."),
    (str "no-color", str "Do not colorize output (default false)."),
    (str "path", str "Path to contents directory (default depends on the command)."),
    (str "quiet", str "Do not print any output (default false).") ]

/-- The loop of `usage` over the table `commands`. -/
def usageCommands (in_ : flags) : List (GoString × GoString) → Proc Unit
  | [] => pure ()
  | (name, desc) :: rest => do
    let d ← descOrPanic desc
    printOut (str "  " ++ SPrint in_ Blue name ++ str "\n" ++ str "        " ++ d ++ str "\n\n")
    usageCommands in_ rest

/-- The callback `usage` hands to `fs.VisitAll`, run over the flags. -/
def usageFlags (in_ : flags) : List (GoString × GoString) → Proc Unit
  | [] => pure ()
  | (name, u) :: rest => do
    printOut (str "\n  " ++ SPrint in_ Green (str "-" ++ name) ++ str "\n")
    let d ← descOrPanic u
    printOut (str "        " ++ d ++ str "\n")
    usageFlags in_ rest

/-- The function `usage`. -/
def usage (in_ : flags) : Proc Unit := do
  printOut (str "Usage:\n")
  printOut (str "\n  " ++ SPrint in_ Yellow appName ++ str " [" ++ SPrint in_ Green (str "options")
    ++ str "] " ++ SPrint in_ Blue (str "command") ++ str "\n")
  printOut (str "\nCommands:\n\n")
  usageCommands in_ commandDescs
  printOut (str "Options:\n")
  usageFlags in_ flagUsages

/-! ## Flags -/

/-- The variables the four flags of `main` are bound to. -/
inductive FlagVar
  | noColor | quiet | help | path
deriving DecidableEq

/-- The map `fs.formal` after the four registrations of `main`. -/
def formal (name : GoString) : Option FlagVar :=
  if name = str "no-color" then some .noColor
  else if name = str "quiet" then some .quiet
  else if name = str "help" then some .help
  else if name = str "path" then some .path
  else none

/-- Go `strconv.ParseBool`. -/
def ParseBool (s : GoString) : Option Bool :=
  if s ∈ [str "1", str "t", str "T", str "TRUE", str "true", str "True"] then some true
  else if s ∈ [str "0", str "f", str "F", str "FALSE", str "false", str "False"] then some false
  else none

/-- The assignment a boolean flag makes to its variable. -/
def setBool (in_ : flags) : FlagVar → Bool → flags
  | .noColor, b => { in_ with noColor := b }
  | .quiet, b => { in_ with quiet := b }
  | .help, b => { in_ with help := b }
  | .path, _ => in_

/-- The search of `parseOne` for the first `=` of a flag: the name before it
and the value after it, if there is one. -/
def cutValue : GoString → GoString × Option GoString
  | [] => ([], none)
  | c :: cs =>
    if c = 61 then ([], some cs)
    else ((c :: (cutValue cs).1), (cutValue cs).2)

/-- The error `flag.ErrHelp`. -/
def ErrHelp : GoError := ⟨str "flag: help requested", false⟩

/-- The state of the flag set `fs` while it parses: the flag variables (the
global `in`) and the arguments not yet consumed (`f.args`). -/
structure FlagSet where
  in_ : flags
  args : List GoString
deriving DecidableEq

/-- The results of `parseOne`, with the state it leaves. -/
structure ParseOne where
  fs : FlagSet
  seen : Bool
  err : Option GoError
deriving DecidableEq

/-- What `fs.Parse` leaves behind: the flag variables, the remaining arguments
`fs.Args()`, and the error it returns. -/
structure Parsed where
  in_ : flags
  args : List GoString
  err : Option GoError
deriving DecidableEq

/-- The method `failf` of the flag set: the message goes to standard error, then
`fs.Usage` runs, which is `usage`. -/
def failf (in_ : flags) (msg : GoString) : Proc GoError := do
  printErr (msg ++ str "\n")
  usage in_
  return Errorf msg

/-- The flag argument `s` without its one or two leading minus signs: the
`name` of `parseOne` before it is cut at the `=`. -/
def flagBody (s : GoString) : GoString :=
  s.drop (if s.get? 1 = some 45 then 2 else 1)

/-- The name of the flag in the argument `s`: the body up to its first `=`,
which is looked for from the second byte on. -/
def flagName (s : GoString) : GoString :=
  (flagBody s).take 1 ++ (cutValue ((flagBody s).drop 1)).1

/-- The value after the `=` in the flag argument `s`, if there is one. -/
def flagValue (s : GoString) : Option GoString :=
  (cutValue ((flagBody s).drop 1)).2

/-- The method `parseOne` of the flag set.  An argument that is no flag, or
`--`, ends the parse; a malformed flag and an undefined one fail through
`failf`; the undefined `-h` runs `fs.Usage` and returns `ErrHelp`; a boolean
flag takes `true` or the value after `=`, and is set to false when that value
does not parse; the string flag takes the value after `=` or else the next
argument. -/
def parseOne (env : Env) (fs : FlagSet) : Proc ParseOne :=
  match fs.args with
  | [] => pure ⟨fs, false, none⟩
  | s :: rest =>
    if s.length < 2 ∨ s.head? ≠ some 45 then pure ⟨fs, false, none⟩
    else if s = str "--" then pure ⟨⟨fs.in_, rest⟩, false, none⟩
    else if flagBody s = [] ∨ (flagBody s).head? = some 45 ∨ (flagBody s).head? = some 61 then do
      let err ← failf fs.in_ (str "bad flag syntax: " ++ s)
      return ⟨fs, false, some err⟩
    else
      match formal (flagName s) with
      | none =>
        if flagName s = str "help" ∨ flagName s = str "h" then do
          usage fs.in_
          return ⟨⟨fs.in_, rest⟩, false, some ErrHelp⟩
        else do
          let err ← failf fs.in_ (str "flag provided but not defined: -" ++ flagName s)
          return ⟨⟨fs.in_, rest⟩, false, some err⟩
      | some var =>
        if var ≠ .path then
          match flagValue s with
          | none => pure ⟨⟨setBool fs.in_ var true, rest⟩, true, none⟩
          | some v =>
            match ParseBool v with
            | some b => pure ⟨⟨setBool fs.in_ var b, rest⟩, true, none⟩
            | none => do
              let err ← failf (setBool fs.in_ var false)
                (str "invalid boolean value " ++ env.Quote v ++ str " for -" ++ flagName s
                  ++ str ": parse error")
              return ⟨⟨setBool fs.in_ var false, rest⟩, false, some err⟩
        else
          match flagValue s, rest with
          | some v, _ => pure ⟨⟨{ fs.in_ with path := v }, rest⟩, true, none⟩
          | none, v :: rest' => pure ⟨⟨{ fs.in_ with path := v }, rest'⟩, true, none⟩
          | none, [] => do
            let err ← failf fs.in_ (str "flag needs an argument: -" ++ flagName s)
            return ⟨⟨fs.in_, []⟩, false, some err⟩

/-- The loop of `fs.Parse` under `flag.ContinueOnError`, for at most `fuel`
turns: it goes on while `parseOne` has seen a flag and returns its error
otherwise.  Every turn that goes on consumes an argument, so the loop never
needs more turns than there are arguments plus one. -/
def parseLoop (env : Env) : Nat → FlagSet → Proc Parsed
  | 0, fs => pure ⟨fs.in_, fs.args, none⟩
  | fuel + 1, fs => do
    let r ← parseOne env fs
    if r.seen then parseLoop env fuel r.fs
    else return ⟨r.fs.in_, r.fs.args, r.err⟩

/-- The call `fs.Parse(arguments)`, the flag variables being `in_` before it. -/
def Parse (env : Env) (in_ : flags) (arguments : List GoString) : Proc Parsed :=
  parseLoop env (arguments.length + 1) ⟨in_, arguments⟩

/-! ## Paths and files -/

/-- The function `getPath`.  On failure `filepath.Abs` returns the empty string
with its error, which is the `path` the not-exist message is built from. -/
def getPath (env : Env) (in_ : flags) (dflt : GoString) : Except GoError GoString :=
  let path := if in_.path = [] then dflt else in_.path
  let expanded : Except GoError GoString :=
    if HasPrefix path (str "~") then
      match env.UserHomeDir with
      | .error err => .error err
      | .ok hd => .ok (hd ++ path.drop 1)
    else .ok path
  match expanded with
  | .error err => .error err
  | .ok p =>
    match env.Abs p with
    | .error err =>
      if err.notExist then .error (Errorf (([] : GoString) ++ str ": no such file or directory"))
      else .error err
    | .ok a => .ok a

/-- The callback `readPathsRecursive` hands to `filepath.Walk`: the new value of
`list` and the error returned to `Walk`. -/
def walkFn (suffix : GoString) (list : List GoString) : Visit → List GoString × Option GoError
  | .failed _ _ err => if err.notExist then (list, none) else (list, some err)
  | .entry path info =>
    if !info.IsDir && HasSuffix info.Name suffix then (list ++ [path], none)
    else (list, none)

/-- The calls of `filepath.Walk` to the callback: it stops at the first call
that returns an error and returns that error. -/
def walkLoop (suffix : GoString) (list : List GoString) :
    List Visit → List GoString × Option GoError
  | [] => (list, none)
  | v :: vs =>
    match walkFn suffix list v with
    | (list', some err) => (list', some err)
    | (list', none) => walkLoop suffix list' vs

/-- The function `readPathsRecursive`: the named results `list` and `err`. -/
def readPathsRecursive (env : Env) (dir suffix : GoString) : List GoString × Option GoError :=
  walkLoop suffix [] (env.Walk dir)

/-- The entries the callback was called on: `Walk` makes no call after the
first one that returns an error. -/
def visited : List Visit → List Visit
  | [] => []
  | v :: vs =>
    match v with
    | .failed _ _ err => if err.notExist then v :: visited vs else [v]
    | .entry _ _ => v :: visited vs

/-! ## Commands -/

/-- The function `cmdCreateApp`. -/
def cmdCreateApp (env : Env) (in_ : flags) (args : List GoString) : Proc (Option GoError) := do
  let name := Arg args 1
  if name = [] then
    printErr (str "Usage:\n\n  " ++ SPrint in_ Yellow appName ++ str " "
      ++ SPrint in_ Blue (str "create-app") ++ str " [application name]\n")
    Exit 2
  echo in_ Blue (str "Creating new application \"" ++ name ++ str "\".")
  match getPath env in_ (str ".") with
  | .error err => return some err
  | .ok path =>
    let checkoutPath := env.JoinPath path name
    let repo := str "github.com/gotrix/skull"
    echo in_ Blue (str "Cloning " ++ repo ++ str " to " ++ checkoutPath)
    let r ← runCmd env ⟨str "git", [str "clone", str "https://" ++ repo, checkoutPath], []⟩
    match r.err with
    | some err =>
      return some (Errorf (str "failed to clone " ++ repo ++ str ": " ++ err.msg ++ str ": "
        ++ TrimRight r.output 10))
    | none =>
      echo in_ Green (str "Cloned " ++ repo ++ str " to " ++ checkoutPath)
      echo in_ Blue (str "Removing origins")
      let r2 ← runCmd env ⟨str "git", [str "remote", str "remove", str "origin"], checkoutPath⟩
      match r2.err with
      | some err =>
        return some (Errorf (str "failed remove origins: " ++ err.msg ++ str ": "
          ++ TrimRight r2.output 10))
      | none =>
        echo in_ Green (str "Removed origins")
        return none

/-- The function `cmdCreateComponent`. -/
def cmdCreateComponent (in_ : flags) (args : List GoString) : Proc (Option GoError) := do
  let name := Arg args 1
  if name = [] then
    printErr (str "Usage:\n\n  " ++ SPrint in_ Yellow appName ++ str " "
      ++ SPrint in_ Blue (str "create-app") ++ str " [component name]\n")
    Exit 2
  echo in_ Blue (str "Creating new component \"" ++ name ++ str "\".")
  return none

/-- The closure `getName` of `cmdBuildComponents`, `path` being the variable it
captures.  `strings.Split` returns at least one piece, so `parts[:len(parts)-1]`
is always in range. -/
def getName (path f : GoString) : GoString :=
  let parts := Split (TrimPrefix f path) 47
  Trim (Join (parts.take (parts.length - 1)) (str "/")) 47

/-- The command `cmdBuildComponents` runs for the source file `f`. -/
def buildCmd (f : GoString) : Cmd :=
  ⟨str "go", [str "build", str "-buildmode=plugin", str "-o",
    TrimSuffix f (str ".go") ++ str ".so", f], []⟩

/-- The loop of `cmdBuildComponents` over the files. -/
def buildLoop (env : Env) (in_ : flags) (path : GoString) :
    List GoString → Proc (Option GoError)
  | [] => pure none
  | f :: rest => do
    let name := SPrint in_ Green (getName path f)
    let out := TrimSuffix f (str ".go") ++ str ".so"
    echo in_ Blue (str "building component \"" ++ name ++ str "\" from " ++ f)
    let r ← runCmd env (buildCmd f)
    match r.err with
    | some err =>
      return some (Errorf (str "failed to build \"" ++ name ++ str "\": " ++ err.msg ++ str ": "
        ++ TrimRight r.output 10))
    | none =>
      echo in_ Green (str "successfully built \"" ++ name ++ str "\" to " ++ out)
      buildLoop env in_ path rest

/-- The function `cmdBuildComponents`. -/
def cmdBuildComponents (env : Env) (in_ : flags) : Proc (Option GoError) :=
  match getPath env in_ (str "./components") with
  | .error err => pure (some err)
  | .ok path =>
    match readPathsRecursive env path (str ".go") with
    | (_, some _) => pure (some (Errorf (str "failed to read " ++ path)))
    | (files, none) =>
      let lf := files.length
      if lf = 0 then pure (some (Errorf (str "no components found in " ++ path)))
      else do
        echo in_ Blue (str "building components from " ++ path)
        echo in_ Blue (str "found " ++ itoa lf ++ str " " ++ multiSuffix lf (str "component"))
        buildLoop env in_ path files

/-! ## Dispatch -/

/-- The type `command`; `exec` reads the environment, the flags and the
positional arguments, all global in the source. -/
structure command where
  name : GoString
  desc : GoString
  exec : Env → flags → List GoString → Proc (Option GoError)

/-- The table `commands`. -/
def commands : List command :=
  [ { name := str "create-app",
      exec := cmdCreateApp,
      desc := str "Create a new application." },
    { name := str "create-component",
      exec := fun _ in_ args => cmdCreateComponent in_ args,
      desc := str "Create a new component." },
    { name := str "build-components",
      exec := fun env in_ _ => cmdBuildComponents env in_,
      desc := str "Build components so files. Path can be modified by -path option. The defaut is \"./components\"." } ]

/-- The loop of `getCommand` over a table. -/
def findCommand (name : GoString) : List command → Except GoError command
  | [] => .error (Errorf (str "unknown command \"" ++ name ++ str "\""))
  | cmd :: rest => if cmd.name = name then .ok cmd else findCommand name rest

/-- The function `getCommand`. -/
def getCommand (name : GoString) : Except GoError command := findCommand name commands

/-- The function `main` on the command line `os.Args[1:]`. -/
def main (env : Env) (osArgs : List GoString) : Proc Unit := do
  let p ← Parse env noFlags osArgs
  let cmdName := Arg p.args 0
  if cmdName = [] ∨ p.in_.help = true then usage p.in_
  else
    match getCommand cmdName with
    | .error err => echoErr p.in_ err
    | .ok cmd => do
      match ← cmd.exec env p.in_ p.args with
      | some err => echoErr p.in_ err
      | none => pure ()

/-! ## Example environments -/

/-- The path elements `filepath.Clean` keeps: empty and `.` elements go, a `..`
removes the element before it (or stays, in a relative path, when there is
none to remove).  `stack` holds the kept elements, last one first. -/
def cleanSegs (rooted : Bool) : List GoString → List GoString → List GoString
  | stack, [] => stack.reverse
  | stack, seg :: rest =>
    if seg = [] ∨ seg = str "." then cleanSegs rooted stack rest
    else if seg = str ".." then
      match stack with
      | top :: below =>
        if top = str ".." then cleanSegs rooted (seg :: stack) rest
        else cleanSegs rooted below rest
      | [] => if rooted then cleanSegs rooted [] rest else cleanSegs rooted [seg] rest
    else cleanSegs rooted (seg :: stack) rest

/-- A `filepath.Clean` for slash-separated paths. -/
def Clean (p : GoString) : GoString :=
  let rooted := HasPrefix p (str "/")
  let out := (if rooted then str "/" else []) ++ Join (cleanSegs rooted [] (Split p 47)) (str "/")
  if out = [] then str "." else out

/-- A `filepath.Abs` for a process whose working directory is `cwd`. -/
def absUnder (cwd p : GoString) : Except GoError GoString :=
  if HasPrefix p (str "/") then .ok (Clean p) else .ok (Clean (cwd ++ str "/" ++ p))

/-- A permission error, as `Lstat` or a directory listing returns it. -/
def errPermission : GoError := ⟨str "permission denied", false⟩

/-- A not-exist error, as `Lstat` returns it for a missing path. -/
def errNotExist : GoError := ⟨str "no such file or directory", true⟩

/-- A system with home directory `/home/u` and working directory `/w`, whose
walks visit the entries `visits` and whose subprocesses all succeed.  Its
`Quote` is `strconv.Quote` on strings that need no escaping. -/
def exampleEnv (visits : List Visit) : Env :=
  { UserHomeDir := .ok (str "/home/u"),
    Abs := absUnder (str "/w"),
    JoinPath := fun a b => Clean (a ++ str "/" ++ b),
    Walk := fun _ => visits,
    Run := fun _ => ⟨none, []⟩,
    Quote := fun s => str "\"" ++ s ++ str "\"" }

/-- A walk over a directory that holds a symbolic link named `a.go`. -/
def symlinkWalk : List Visit :=
  [ .entry (str "/w/components") ⟨str "components", .dir⟩,
    .entry (str "/w/components/a.go") ⟨str "a.go", .symlink⟩ ]

/-- A walk over a directory that holds nothing but a subdirectory that cannot
be listed. -/
def unreadableWalk : List Visit :=
  [ .entry (str "/w/components") ⟨str "components", .dir⟩,
    .failed (str "/w/components/secret") (some ⟨str "secret", .dir⟩) errPermission ]

/-- A walk over three components `a`, `b` and `c`, one source file each. -/
def threeWalk : List Visit :=
  [ .entry (str "/w/components") ⟨str "components", .dir⟩,
    .entry (str "/w/components/a") ⟨str "a", .dir⟩,
    .entry (str "/w/components/a/main.go") ⟨str "main.go", .regular⟩,
    .entry (str "/w/components/b") ⟨str "b", .dir⟩,
    .entry (str "/w/components/b/main.go") ⟨str "main.go", .regular⟩,
    .entry (str "/w/components/c") ⟨str "c", .dir⟩,
    .entry (str "/w/components/c/main.go") ⟨str "main.go", .regular⟩ ]

/-- The system `exampleEnv threeWalk`, except that the build of the component
`b` fails. -/
def secondFailsEnv : Env :=
  { exampleEnv threeWalk with
    Run := fun c =>
      if c = buildCmd (str "/w/components/b/main.go") then
        ⟨some ⟨str "exit status 1", false⟩, str "syntax error\n"⟩
      else ⟨none, []⟩ }

/-- The flag values of a command line that sets `-help` only. -/
def helpFlags : flags := ⟨false, false, true, []⟩

/-- The flag values of a command line that sets `-quiet` only. -/
def quietFlags : flags := ⟨false, true, false, []⟩

/-! ## Lemmas on strings -/

theorem splitOn_ne_nil (f : UInt8 → Bool) (s : GoString) : splitOn f s ≠ [] := by
  induction s with
  | nil => simp [splitOn]
  | cons c cs ih =>
    unfold splitOn
    split
    · simp
    · split <;> simp

theorem splitOn_cons_sep (f : UInt8 → Bool) (c : UInt8) (s : GoString) (h : f c = true) :
    splitOn f (c :: s) = [] :: splitOn f s := by
  simp [splitOn, h]

theorem splitOn_append_sep (f : UInt8 → Bool) (a : GoString) (c : UInt8) (b : GoString)
    (h : f c = true) : splitOn f (a ++ c :: b) = splitOn f a ++ splitOn f b := by
  induction a with
  | nil => simp [splitOn, h]
  | cons x xs ih =>
    by_cases hx : f x = true
    · simp [splitOn, hx, ih]
    · have h1 : splitOn f (x :: (xs ++ c :: b))
          = match splitOn f (xs ++ c :: b) with
            | [] => [[x]]
            | w :: ws => (x :: w) :: ws := by
        simp [splitOn, hx]
      have h2 : splitOn f (x :: xs)
          = match splitOn f xs with
            | [] => [[x]]
            | w :: ws => (x :: w) :: ws := by
        simp [splitOn, hx]
      rw [List.cons_append, h1, h2, ih]
      cases hs : splitOn f xs with
      | nil => exact absurd hs (splitOn_ne_nil f xs)
      | cons w ws => simp

theorem splitOn_no_sep (f : UInt8 → Bool) (w : GoString) (h : ∀ c ∈ w, f c = false) :
    splitOn f w = [w] := by
  induction w with
  | nil => simp [splitOn]
  | cons x xs ih =>
    have hx : f x = false := h x (List.mem_cons_self _ _)
    have hxs : splitOn f xs = [xs] := ih (fun c hc => h c (List.mem_cons_of_mem _ hc))
    simp [splitOn, hx, hxs]

theorem splitOn_pieces_no_sep (f : UInt8 → Bool) (s : GoString) :
    ∀ w ∈ splitOn f s, ∀ c ∈ w, f c = false := by
  induction s with
  | nil => simp [splitOn]
  | cons x xs ih =>
    by_cases hx : f x = true
    · intro w hw
      simp only [splitOn, hx, if_true, List.mem_cons] at hw
      rcases hw with rfl | hw
      · simp
      · exact ih w hw
    · intro w hw
      have h1 : splitOn f (x :: xs)
          = match splitOn f xs with
            | [] => [[x]]
            | w :: ws => (x :: w) :: ws := by
        simp [splitOn, hx]
      rw [h1] at hw
      cases hs : splitOn f xs with
      | nil => exact absurd hs (splitOn_ne_nil f xs)
      | cons v vs =>
        rw [hs] at hw ih
        simp only [List.mem_cons] at hw
        rcases hw with rfl | hw
        · intro c hc
          simp only [List.mem_cons] at hc
          rcases hc with rfl | hc
          · simpa using hx
          · exact ih v (List.mem_cons_self _ _) c hc
        · exact ih w (List.mem_cons_of_mem _ hw)

theorem splitOn_congr (f g : UInt8 → Bool) (s : GoString) (h : ∀ c ∈ s, f c = g c) :
    splitOn f s = splitOn g s := by
  induction s with
  | nil => simp [splitOn]
  | cons x xs ih =>
    have hx : f x = g x := h x (List.mem_cons_self _ _)
    have hxs := ih (fun c hc => h c (List.mem_cons_of_mem _ hc))
    simp [splitOn, hx, hxs]

/-- The non-empty pieces of a string cut at the bytes satisfying `f`. -/
theorem words_cons_sep (f : UInt8 → Bool) (c : UInt8) (s : GoString) (h : f c = true) :
    (splitOn f (c :: s)).filter (· ≠ []) = (splitOn f s).filter (· ≠ []) := by
  rw [splitOn_cons_sep f c s h]
  simp

theorem words_append_sep (f : UInt8 → Bool) (a : GoString) (c : UInt8) (b : GoString)
    (h : f c = true) :
    (splitOn f (a ++ c :: b)).filter (· ≠ [])
      = (splitOn f a).filter (· ≠ []) ++ (splitOn f b).filter (· ≠ []) := by
  rw [splitOn_append_sep f a c b h, List.filter_append]

theorem words_snoc_sep (f : UInt8 → Bool) (a : GoString) (c : UInt8) (h : f c = true) :
    (splitOn f (a ++ [c])).filter (· ≠ []) = (splitOn f a).filter (· ≠ []) := by
  rw [words_append_sep f a c [] h]
  simp [splitOn]

theorem words_no_sep (f : UInt8 → Bool) (w : GoString) (h : ∀ c ∈ w, f c = false) :
    (splitOn f w).filter (· ≠ []) = if w = [] then [] else [w] := by
  rw [splitOn_no_sep f w h]
  by_cases hw : w = [] <;> simp [hw]

theorem TrimRight_snoc (s : GoString) (c cut : UInt8) :
    TrimRight (s ++ [c]) cut = if c = cut then TrimRight s cut else s ++ [c] := by
  unfold TrimRight
  by_cases h : c = cut
  · simp [h, List.dropWhile_cons]
  · simp [h, List.dropWhile_cons]

theorem words_TrimLeft (s : GoString) (cut : UInt8) :
    (Split (TrimLeft s cut) cut).filter (· ≠ []) = (Split s cut).filter (· ≠ []) := by
  induction s with
  | nil => simp [TrimLeft]
  | cons x xs ih =>
    by_cases h : x = cut
    · have : TrimLeft (x :: xs) cut = TrimLeft xs cut := by
        simp [TrimLeft, List.dropWhile_cons, h]
      rw [this, ih]
      unfold Split
      rw [words_cons_sep _ x xs (by simp [h])]
    · have : TrimLeft (x :: xs) cut = x :: xs := by
        simp [TrimLeft, List.dropWhile_cons, h]
      rw [this]

theorem words_TrimRight (s : GoString) (cut : UInt8) :
    (Split (TrimRight s cut) cut).filter (· ≠ []) = (Split s cut).filter (· ≠ []) := by
  induction s using List.reverseRecOn with
  | nil => simp [TrimRight]
  | append_singleton xs x ih =>
    rw [TrimRight_snoc]
    by_cases h : x = cut
    · simp only [h, if_true]
      rw [ih]
      unfold Split
      rw [words_snoc_sep _ xs cut (by simp)]
    · simp [h]

theorem spaceWords_Trim (s : GoString) : spaceWords (Trim s 32) = spaceWords s := by
  unfold spaceWords Trim
  rw [words_TrimRight, words_TrimLeft]

/-! ## The loop of `makeDesc` -/

theorem get?_at_length (A : List GoString) (cur : GoString) (B : List GoString) :
    (A ++ cur :: B).get? A.length = some cur := by
  induction A with
  | nil => rfl
  | cons a A ih => simpa using ih

theorem set_at_length (A : List GoString) (cur x : GoString) (B : List GoString) :
    (A ++ cur :: B).set A.length x = A ++ x :: B := by
  induction A with
  | nil => rfl
  | cons a A ih => simp

theorem makeDescStep_fit (A : List GoString) (cur : GoString) (B : List GoString) (p : GoString)
    (h : (cur ++ str " " ++ p).length ≤ descWidth) :
    makeDescStep (A ++ cur :: B, A.length) p
      = some (A ++ (if cur = [] then p else cur ++ (str " " ++ p)) :: B, A.length) := by
  unfold makeDescStep
  simp only [get?_at_length, h, if_true, set_at_length]
  by_cases hc : cur = [] <;> simp [hc]

theorem makeDescStep_break (A : List GoString) (cur nxt : GoString) (B : List GoString)
    (p : GoString) (h : ¬ (cur ++ str " " ++ p).length ≤ descWidth) :
    makeDescStep (A ++ cur :: nxt :: B, A.length) p
      = some ((A ++ [cur]) ++ (nxt ++ p) :: B, A.length + 1) := by
  unfold makeDescStep
  have e : A ++ cur :: nxt :: B = (A ++ [cur]) ++ nxt :: B := by simp
  have l : A.length + 1 = (A ++ [cur]).length := by simp
  simp only [get?_at_length, h, if_false]
  rw [e, l, get?_at_length]
  simp only [set_at_length]

theorem makeDescStep_overflow (A : List GoString) (cur p : GoString)
    (h : ¬ (cur ++ str " " ++ p).length ≤ descWidth) :
    makeDescStep (A ++ [cur], A.length) p = none := by
  unfold makeDescStep
  have l : (A ++ [cur]).get? (A.length + 1) = none := by simp
  have g : (A ++ [cur]).get? A.length = some cur := get?_at_length A cur []
  simp only [g, h, if_false, l]

/-- An invariant `J lines rest` of the lines filled so far and the words still
to come, kept by both branches of the loop body, holds when the loop ends; the
buffer is then the filled lines followed by untouched empty entries. -/
theorem makeDesc_loop_inv (J : List GoString → List GoString → Prop)
    (hfit : ∀ A cur p ps, J (A ++ [cur]) (p :: ps) →
      (cur ++ str " " ++ p).length ≤ descWidth →
      J (A ++ [if cur = [] then p else cur ++ (str " " ++ p)]) ps)
    (hbrk : ∀ A cur p ps, J (A ++ [cur]) (p :: ps) →
      ¬ (cur ++ str " " ++ p).length ≤ descWidth → J ((A ++ [cur]) ++ [p]) ps) :
    ∀ (ps : List GoString) (A : List GoString) (cur : GoString) (k : Nat)
      (st : List GoString × Nat),
      J (A ++ [cur]) ps →
      ps.foldlM makeDescStep (A ++ cur :: List.replicate k [], A.length) = some st →
      ∃ A' cur' k', st.1 = A' ++ cur' :: List.replicate k' [] ∧ J (A' ++ [cur']) [] := by
  intro ps
  induction ps with
  | nil =>
    intro A cur k st hJ h
    simp only [List.foldlM_nil] at h
    cases h
    exact ⟨A, cur, k, rfl, hJ⟩
  | cons p ps ih =>
    intro A cur k st hJ h
    rw [List.foldlM_cons] at h
    by_cases hw : (cur ++ str " " ++ p).length ≤ descWidth
    · rw [makeDescStep_fit A cur _ p hw] at h
      exact ih A _ k st (hfit A cur p ps hJ hw) h
    · cases k with
      | zero =>
        rw [List.replicate_zero, makeDescStep_overflow A cur p hw] at h
        cases h
      | succ k =>
        rw [List.replicate_succ, makeDescStep_break A cur [] _ p hw] at h
        have h' : ps.foldlM makeDescStep
            ((A ++ [cur]) ++ p :: List.replicate k [], (A ++ [cur]).length) = some st := by
          simpa using h
        exact ih (A ++ [cur]) p k st (hbrk A cur p ps hJ hw) h'

/-- The lines `makeDesc` joins, whenever it returns: the non-empty ones among
lines that satisfy any invariant of the loop. -/
theorem makeDescLines_inv (J : List GoString → List GoString → Prop)
    (hfit : ∀ A cur p ps, J (A ++ [cur]) (p :: ps) →
      (cur ++ str " " ++ p).length ≤ descWidth →
      J (A ++ [if cur = [] then p else cur ++ (str " " ++ p)]) ps)
    (hbrk : ∀ A cur p ps, J (A ++ [cur]) (p :: ps) →
      ¬ (cur ++ str " " ++ p).length ≤ descWidth → J ((A ++ [cur]) ++ [p]) ps)
    (s : GoString) (hinit : J [[]] (makeDescParts s)) (ret : List GoString)
    (h : makeDescLines s = some ret) :
    ∃ lines, J lines [] ∧ ret = lines.filter (· ≠ []) := by
  unfold makeDescLines at h
  cases hf : (makeDescParts s).foldlM makeDescStep (makeDescBuffer s, 0) with
  | none => rw [hf] at h; cases h
  | some st =>
    rw [hf] at h
    simp only [Option.map_some'] at h
    cases h
    have hf' : (makeDescParts s).foldlM makeDescStep
        (([] : List GoString) ++ [] :: List.replicate (s.length / descWidth) [],
          ([] : List GoString).length) = some st := by
      simpa [makeDescBuffer, List.replicate_succ] using hf
    obtain ⟨A', cur', k', hst, hJ⟩ :=
      makeDesc_loop_inv J hfit hbrk (makeDescParts s) [] [] _ st (by simpa using hinit) hf'
    refine ⟨A' ++ [cur'], hJ, ?_⟩
    rw [hst]
    simp [List.filter_append, List.filter_cons]

theorem splitOn_pieces_subset (f : UInt8 → Bool) (s : GoString) :
    ∀ w ∈ splitOn f s, ∀ c ∈ w, c ∈ s := by
  induction s with
  | nil => simp [splitOn]
  | cons x xs ih =>
    intro w hw c hc
    by_cases hx : f x = true
    · simp only [splitOn, hx, if_true, List.mem_cons] at hw
      rcases hw with rfl | hw
      · cases hc
      · exact List.mem_cons_of_mem _ (ih w hw c hc)
    · have h1 : splitOn f (x :: xs)
          = match splitOn f xs with
            | [] => [[x]]
            | w :: ws => (x :: w) :: ws := by
        simp [splitOn, hx]
      rw [h1] at hw
      cases hs : splitOn f xs with
      | nil => exact absurd hs (splitOn_ne_nil f xs)
      | cons v vs =>
        rw [hs] at hw ih
        simp only [List.mem_cons] at hw
        rcases hw with rfl | hw
        · simp only [List.mem_cons] at hc
          rcases hc with rfl | hc
          · exact List.mem_cons_self _ _
          · exact List.mem_cons_of_mem _ (ih v (List.mem_cons_self _ _) c hc)
        · exact List.mem_cons_of_mem _ (ih w (List.mem_cons_of_mem _ hw) c hc)

theorem Trim_subset (s : GoString) (cut : UInt8) : ∀ c ∈ Trim s cut, c ∈ s := by
  intro c hc
  unfold Trim TrimRight TrimLeft at hc
  rw [List.mem_reverse] at hc
  have h1 := (List.dropWhile_sublist (fun x => x == cut)).subset hc
  rw [List.mem_reverse] at h1
  exact (List.dropWhile_sublist (fun x => x == cut)).subset h1

theorem Join_nil (sep : GoString) : Join [] sep = [] := rfl

theorem Join_singleton (a sep : GoString) : Join [a] sep = a := by
  simp [Join, List.intercalate, List.intersperse]

theorem Join_cons_cons (a b : GoString) (rest : List GoString) (sep : GoString) :
    Join (a :: b :: rest) sep = a ++ (sep ++ Join (b :: rest) sep) := by
  simp [Join, List.intercalate, List.intersperse]

theorem lineBreak_eq : lineBreak = [10, 32, 32, 32, 32, 32, 32, 32, 32] := by decide

theorem blankWords_lineBreak (a b : GoString) :
    blankWords (a ++ (lineBreak ++ b)) = blankWords a ++ blankWords b := by
  unfold blankWords
  rw [lineBreak_eq]
  simp only [List.cons_append, List.nil_append]
  rw [words_append_sep _ a 10 _ (by decide)]
  iterate 8 rw [words_cons_sep _ 32 _ (by decide)]

theorem blankWords_Join (ret : List GoString) :
    blankWords (Join ret lineBreak) = ret.flatMap blankWords := by
  induction ret with
  | nil => simp [Join_nil, blankWords, splitOn]
  | cons a rest ih =>
    cases rest with
    | nil => simp [Join_singleton]
    | cons b rest =>
      rw [Join_cons_cons, blankWords_lineBreak, ih]
      simp

theorem blankWords_eq_spaceWords (l : GoString) (h : (10 : UInt8) ∉ l) :
    blankWords l = spaceWords l := by
  unfold blankWords spaceWords Split
  rw [splitOn_congr (fun c => c == 32 || c == 10) (fun c => c == 32) l]
  intro c hc
  have : c ≠ 10 := fun e => h (e ▸ hc)
  simp [this]

theorem spaceWords_nil : spaceWords [] = [] := by
  simp [spaceWords, Split, splitOn]

theorem spaceWords_word (p : GoString) (h : ∀ c ∈ p, c ≠ 32) :
    spaceWords p = if p = [] then [] else [p] := by
  unfold spaceWords Split
  exact words_no_sep _ p (fun c hc => by simpa using h c hc)

theorem spaceWords_append_space (a b : GoString) :
    spaceWords (a ++ (str " " ++ b)) = spaceWords a ++ spaceWords b := by
  have e : str " " = [32] := by decide
  rw [e]
  unfold spaceWords Split
  exact words_append_sep _ a 32 b (by decide)

theorem filter_word_cons (p : GoString) (ps : List GoString) :
    (p :: ps).filter (· ≠ []) = (if p = [] then [] else [p]) ++ ps.filter (· ≠ []) := by
  by_cases hp : p = [] <;> simp [hp]

theorem flatMap_filter_spaceWords (lines : List GoString) :
    (lines.filter (· ≠ [])).flatMap spaceWords = lines.flatMap spaceWords := by
  induction lines with
  | nil => rfl
  | cons l ls ih =>
    by_cases hl : l = []
    · rw [List.filter_cons_of_neg (by simp [hl]), List.flatMap_cons, ih, hl, spaceWords_nil]
      rfl
    · rw [List.filter_cons_of_pos (by simp [hl]), List.flatMap_cons, List.flatMap_cons, ih]

/-! ## Claims on `makeDesc` -/

/-- C9 (the source fails here): on the 62-byte string made of a 60-byte word,
a space and the word `b`, the line buffer has 2 entries, the loop breaks the
line twice, and `makeDesc` panics with an index out of range instead of
returning. -/
theorem makeDesc_index_out_of_range :
    (makeDescBuffer (List.replicate 60 97 ++ str " b")).length = 2 ∧
    makeDescParts (List.replicate 60 97 ++ str " b") = [List.replicate 60 97, str "b"] ∧
    makeDesc (List.replicate 60 97 ++ str " b") = none := by
  decide

/-- C2: whenever `makeDesc s` returns, it is the join, by a newline and eight
spaces, of lines each of which is at most 60 bytes long or is a single word of
`s` (a piece of the trimmed `s` cut at its spaces) longer than 60 bytes. -/
theorem makeDesc_line_width (s r : GoString) (h : makeDesc s = some r) :
    ∃ ret, makeDescLines s = some ret ∧ r = Join ret lineBreak ∧
      ∀ l ∈ ret, l.length ≤ 60 ∨ (l ∈ makeDescParts s ∧ 60 < l.length) := by
  unfold makeDesc at h
  cases hl : makeDescLines s with
  | none => rw [hl] at h; cases h
  | some ret =>
    rw [hl] at h
    simp only [Option.map_some', Option.some.injEq] at h
    refine ⟨ret, rfl, h.symm, ?_⟩
    obtain ⟨lines, hJ, hret⟩ := makeDescLines_inv
      (fun lines ps => (∀ l ∈ lines, l.length ≤ 60 ∨ (l ∈ makeDescParts s ∧ 60 < l.length))
        ∧ ∀ p ∈ ps, p ∈ makeDescParts s)
      (by
        intro A cur p ps hJ hw
        refine ⟨?_, fun q hq => hJ.2 q (List.mem_cons_of_mem _ hq)⟩
        intro l hl
        rw [List.mem_append, List.mem_singleton] at hl
        rcases hl with hl | rfl
        · exact hJ.1 l (List.mem_append_left _ hl)
        · left
          simp only [descWidth, List.length_append] at hw
          by_cases hc : cur = []
          · simp only [hc, if_true]; omega
          · simp only [hc, if_false, List.length_append]; omega)
      (by
        intro A cur p ps hJ hw
        refine ⟨?_, fun q hq => hJ.2 q (List.mem_cons_of_mem _ hq)⟩
        intro l hl
        rw [List.mem_append, List.mem_singleton] at hl
        rcases hl with hl | rfl
        · exact hJ.1 l hl
        · by_cases hp : l.length ≤ 60
          · exact Or.inl hp
          · exact Or.inr ⟨hJ.2 l (List.mem_cons_self _ _), by omega⟩)
      s ⟨by simp, fun p hp => hp⟩ ret hl
    intro l hmem
    rw [hret] at hmem
    exact hJ.1 l (List.mem_of_mem_filter hmem)

/-- A string on which `makeDesc` returns two lines, the second one a word of
61 bytes. -/
theorem makeDesc_line_width_witness :
    ∃ ret, makeDescLines (str "ab " ++ List.replicate 61 97) = some ret ∧
      (str "ab" ++ lineBreak ++ List.replicate 61 97) = Join ret lineBreak ∧
      ∀ l ∈ ret, l.length ≤ 60 ∨
        (l ∈ makeDescParts (str "ab " ++ List.replicate 61 97) ∧ 60 < l.length) :=
  makeDesc_line_width (str "ab " ++ List.replicate 61 97)
    (str "ab" ++ lineBreak ++ List.replicate 61 97) (by decide)

/-- C10: whenever `makeDesc s` returns on a string `s` without a newline, the
result is the join, by the line break, of lines that hold no newline and whose
non-empty space-separated words, taken line after line, are exactly the
non-empty space-separated words of `s` in order; equivalently the words of the
result, cut at spaces and newlines, are those of `s`. -/
theorem makeDesc_keeps_words (s r : GoString) (hnl : (10 : UInt8) ∉ s)
    (h : makeDesc s = some r) :
    ∃ ret, r = Join ret lineBreak ∧ (∀ l ∈ ret, (10 : UInt8) ∉ l) ∧
      ret.flatMap spaceWords = spaceWords s ∧ blankWords r = spaceWords s := by
  unfold makeDesc at h
  cases hl : makeDescLines s with
  | none => rw [hl] at h; cases h
  | some ret =>
    rw [hl] at h
    simp only [Option.map_some', Option.some.injEq] at h
    obtain ⟨lines, hJ, hret⟩ := makeDescLines_inv
      (fun lines ps => (∀ p ∈ ps, ∀ c ∈ p, c ≠ 32 ∧ c ≠ 10) ∧ (∀ l ∈ lines, (10 : UInt8) ∉ l)
        ∧ lines.flatMap spaceWords ++ ps.filter (· ≠ []) = spaceWords s)
      (by
        intro A cur p ps hJ _
        obtain ⟨hps, hlines, hwords⟩ := hJ
        have hp := hps p (List.mem_cons_self _ _)
        have hcur : (10 : UInt8) ∉ cur := hlines cur (by simp)
        have hp10 : (10 : UInt8) ∉ p := fun hm => (hp 10 hm).2 rfl
        refine ⟨fun q hq => hps q (List.mem_cons_of_mem _ hq), ?_, ?_⟩
        · intro l hl
          rw [List.mem_append, List.mem_singleton] at hl
          rcases hl with hl | rfl
          · exact hlines l (List.mem_append_left _ hl)
          · by_cases hc : cur = []
            · simpa [hc] using hp10
            · have e : str " " = [32] := by decide
              simp only [hc, if_false, e, List.mem_append, List.mem_singleton, not_or]
              exact ⟨hcur, by decide, hp10⟩
        · rw [← hwords, filter_word_cons, List.flatMap_append, List.flatMap_append,
            List.flatMap_singleton, List.flatMap_singleton, ← spaceWords_word p (fun c hc => (hp c hc).1)]
          by_cases hc : cur = []
          · simp [hc, spaceWords_nil]
          · simp only [hc, if_false, spaceWords_append_space, List.append_assoc])
      (by
        intro A cur p ps hJ _
        obtain ⟨hps, hlines, hwords⟩ := hJ
        have hp := hps p (List.mem_cons_self _ _)
        refine ⟨fun q hq => hps q (List.mem_cons_of_mem _ hq), ?_, ?_⟩
        · intro l hl
          rw [List.mem_append, List.mem_singleton] at hl
          rcases hl with hl | rfl
          · exact hlines l hl
          · exact fun hm => (hp 10 hm).2 rfl
        · rw [← hwords, filter_word_cons, List.flatMap_append (A ++ [cur]),
            List.flatMap_singleton, ← spaceWords_word p (fun c hc => (hp c hc).1),
            List.append_assoc])
      s
      (by
        refine ⟨?_, by simp, ?_⟩
        · intro p hp c hc
          refine ⟨?_, ?_⟩
          · intro e
            have := splitOn_pieces_no_sep (· == 32) (Trim s 32) p hp c hc
            simp [e] at this
          · intro e
            exact hnl (Trim_subset s 32 _
              (splitOn_pieces_subset (· == 32) (Trim s 32) p hp 10 (e ▸ hc)))
        · simp only [List.flatMap_singleton, spaceWords_nil, List.nil_append]
          exact spaceWords_Trim s)
      ret hl
    obtain ⟨_, hlines, hwords⟩ := hJ
    have hret10 : ∀ l ∈ ret, (10 : UInt8) ∉ l := by
      intro l hmem
      rw [hret] at hmem
      exact hlines l (List.mem_of_mem_filter hmem)
    have hflat : ret.flatMap spaceWords = spaceWords s := by
      rw [hret, flatMap_filter_spaceWords]
      simpa using hwords
    refine ⟨ret, h.symm, hret10, hflat, ?_⟩
    rw [← h, blankWords_Join, ← hflat]
    apply List.flatMap_congr
    intro l hmem
    exact blankWords_eq_spaceWords l (hret10 l hmem)

/-- A string with doubled, leading and trailing spaces that `makeDesc` breaks
into two lines. -/
theorem makeDesc_keeps_words_witness :
    ∃ ret, (List.replicate 40 97 ++ str "  b" ++ lineBreak ++ List.replicate 30 99) = Join ret lineBreak ∧
      (∀ l ∈ ret, (10 : UInt8) ∉ l) ∧
      ret.flatMap spaceWords
        = spaceWords (str " " ++ List.replicate 40 97 ++ str "  b " ++ List.replicate 30 99 ++ str " ") ∧
      blankWords (List.replicate 40 97 ++ str "  b" ++ lineBreak ++ List.replicate 30 99)
        = spaceWords (str " " ++ List.replicate 40 97 ++ str "  b " ++ List.replicate 30 99 ++ str " ") :=
  makeDesc_keeps_words
    (str " " ++ List.replicate 40 97 ++ str "  b " ++ List.replicate 30 99 ++ str " ")
    (List.replicate 40 97 ++ str "  b" ++ lineBreak ++ List.replicate 30 99)
    (by decide) (by decide)

/-! ## Component names -/

theorem str_slash : str "/" = [47] := by decide

theorem Split_Join_slash (L : List GoString) (hne : L ≠ []) (h : ∀ d ∈ L, (47 : UInt8) ∉ d) :
    Split (Join L (str "/")) 47 = L := by
  induction L with
  | nil => exact absurd rfl hne
  | cons a rest ih =>
    have ha : ∀ c ∈ a, (c == (47 : UInt8)) = false := by
      intro c hc
      have : c ≠ 47 := fun e => h a (List.mem_cons_self _ _) (e ▸ hc)
      simpa using this
    cases rest with
    | nil =>
      rw [Join_singleton]
      exact splitOn_no_sep _ a ha
    | cons b rest =>
      rw [Join_cons_cons, str_slash]
      unfold Split
      rw [List.singleton_append, splitOn_append_sep _ a 47 _ (by decide), splitOn_no_sep _ a ha]
      have := ih (by simp) (fun d hd => h d (List.mem_cons_of_mem _ hd))
      unfold Split at this
      rw [str_slash] at this
      rw [this]
      rfl

theorem Join_slash_head (L : List GoString) (hne : L ≠ [])
    (h : ∀ d ∈ L, d ≠ [] ∧ (47 : UInt8) ∉ d) :
    ∃ c Y, Join L (str "/") = c :: Y ∧ c ≠ 47 := by
  cases L with
  | nil => exact absurd rfl hne
  | cons a rest =>
    obtain ⟨hane, ha⟩ := h a (List.mem_cons_self _ _)
    cases a with
    | nil => exact absurd rfl hane
    | cons c a' =>
      have hc : c ≠ 47 := fun e => ha (e ▸ List.mem_cons_self _ _)
      cases rest with
      | nil => exact ⟨c, a', by rw [Join_singleton], hc⟩
      | cons b rest => exact ⟨c, _, by rw [Join_cons_cons]; rfl, hc⟩

theorem Join_slash_last (L : List GoString) (hne : L ≠ [])
    (h : ∀ d ∈ L, d ≠ [] ∧ (47 : UInt8) ∉ d) :
    ∃ Y c, Join L (str "/") = Y ++ [c] ∧ c ≠ 47 := by
  induction L with
  | nil => exact absurd rfl hne
  | cons a rest ih =>
    cases rest with
    | nil =>
      obtain ⟨hane, ha⟩ := h a (List.mem_cons_self _ _)
      obtain ⟨Y, c, rfl⟩ : ∃ Y c, a = Y ++ [c] := by
        rcases List.eq_nil_or_concat a with e | ⟨Y, c, e⟩
        · exact absurd e hane
        · exact ⟨Y, c, by simpa using e⟩
      exact ⟨Y, c, by rw [Join_singleton], fun e => ha (by simp [e])⟩
    | cons b rest =>
      obtain ⟨Y, c, hY, hc⟩ := ih (by simp) (fun d hd => h d (List.mem_cons_of_mem _ hd))
      exact ⟨a ++ (str "/" ++ Y), c, by rw [Join_cons_cons, hY]; simp, hc⟩

theorem TrimPrefix_append (p x : GoString) : TrimPrefix (p ++ x) p = x := by
  unfold TrimPrefix HasPrefix
  have : p.isPrefixOf (p ++ x) = true := by
    rw [List.isPrefixOf_iff_prefix]
    exact List.prefix_append p x
  simp [this]

theorem Trim_slash_Join (segs : List GoString) (h : ∀ d ∈ segs, d ≠ [] ∧ (47 : UInt8) ∉ d) :
    Trim (Join ([] :: segs) (str "/")) 47 = Join segs (str "/") := by
  cases segs with
  | nil =>
    rw [Join_singleton, Join_nil]
    rfl
  | cons d rest =>
    obtain ⟨c, Y, hY, hc⟩ := Join_slash_head (d :: rest) (by simp) h
    obtain ⟨Z, c', hZ, hc'⟩ := Join_slash_last (d :: rest) (by simp) h
    rw [Join_cons_cons, str_slash, List.nil_append, List.singleton_append]
    have hl : TrimLeft (47 :: Join (d :: rest) [47]) 47 = Join (d :: rest) [47] := by
      rw [str_slash] at hY
      rw [hY]
      simp [TrimLeft, List.dropWhile_cons, hc]
    unfold Trim
    rw [hl]
    rw [str_slash] at hZ
    rw [hZ, TrimRight_snoc]
    simp [hc']

/-- C5: for a root `path` not ending in a slash and a file
`path/d1/.../dk/file` whose segments are non-empty and hold no slash, the name
`getName` derives is `d1/.../dk`, the empty name when `k = 0`. -/
theorem getName_segments (path : GoString) (segs : List GoString) (file : GoString)
    (_hroot : HasSuffix path (str "/") = false)
    (hsegs : ∀ d ∈ segs, d ≠ [] ∧ (47 : UInt8) ∉ d)
    (hfile : file ≠ [] ∧ (47 : UInt8) ∉ file) :
    getName path (Join (path :: (segs ++ [file])) (str "/")) = Join segs (str "/") := by
  have hJ : Join (path :: (segs ++ [file])) (str "/")
      = path ++ (str "/" ++ Join (segs ++ [file]) (str "/")) := by
    cases segs with
    | nil => exact Join_cons_cons path file [] _
    | cons d rest => exact Join_cons_cons path d (rest ++ [file]) _
  have hall : ∀ d ∈ segs ++ [file], (47 : UInt8) ∉ d := by
    intro d hd
    rw [List.mem_append, List.mem_singleton] at hd
    rcases hd with hd | rfl
    · exact (hsegs d hd).2
    · exact hfile.2
  have hsplit : Split (str "/" ++ Join (segs ++ [file]) (str "/")) 47 = [] :: (segs ++ [file]) := by
    have := Split_Join_slash (segs ++ [file]) (by simp) hall
    unfold Split at this ⊢
    rw [str_slash, List.singleton_append, splitOn_cons_sep _ 47 _ (by decide)]
    rw [str_slash] at this
    rw [this]
  unfold getName
  simp only [hJ, TrimPrefix_append, hsplit]
  have ht : (([] : GoString) :: (segs ++ [file])).take
      ((([] : GoString) :: (segs ++ [file])).length - 1) = [] :: segs := by
    simp
  rw [ht]
  exact Trim_slash_Join segs hsegs

/-- The file `/w/components/bar/baz/main.go` under the root `/w/components`. -/
theorem getName_segments_witness :
    getName (str "/w/components") (Join (str "/w/components" :: ([str "bar", str "baz"] ++ [str "main.go"])) (str "/"))
      = Join [str "bar", str "baz"] (str "/") :=
  getName_segments (str "/w/components") [str "bar", str "baz"] (str "main.go")
    (by decide) (by decide) (by decide)

/-! ## Listing files -/

theorem walkLoop_spec (suffix : GoString) (visits : List Visit) (list : List GoString) :
    (walkLoop suffix list visits).1 = list ++ (visited visits).filterMap (fun v =>
      match v with
      | .entry p info => if !info.IsDir && HasSuffix info.Name suffix then some p else none
      | .failed _ _ _ => none) := by
  induction visits generalizing list with
  | nil => simp [walkLoop, visited]
  | cons v vs ih =>
    cases v with
    | entry p info =>
      by_cases hc : (!info.IsDir && HasSuffix info.Name suffix) = true
      · simp only [walkLoop, walkFn, visited, hc, if_true, List.filterMap_cons]
        rw [ih]
        simp
      · simp only [walkLoop, walkFn, visited, hc, List.filterMap_cons, Bool.false_eq_true,
          if_false]
        rw [ih]
    | failed p info err =>
      by_cases he : err.notExist = true
      · simp only [walkLoop, walkFn, visited, he, if_true, List.filterMap_cons]
        rw [ih]
      · simp [walkLoop, walkFn, visited, he]

/-- C6 (as the source has it): the paths `readPathsRecursive` returns are
exactly the entries the walk visited that are not directories and whose name
ends with the suffix.  Every returned path is such an entry, so never a
directory, and every such entry visited, so every regular file among them, is
returned. -/
theorem readPathsRecursive_non_directories (env : Env) (dir suffix : GoString) :
    (∀ p ∈ (readPathsRecursive env dir suffix).1, ∃ info,
      Visit.entry p info ∈ visited (env.Walk dir) ∧ info.IsDir = false ∧
        HasSuffix info.Name suffix = true) ∧
    (∀ p info, Visit.entry p info ∈ visited (env.Walk dir) → info.IsDir = false →
      HasSuffix info.Name suffix = true → p ∈ (readPathsRecursive env dir suffix).1) ∧
    (∀ p info, Visit.entry p info ∈ visited (env.Walk dir) → info.IsRegular = true →
      HasSuffix info.Name suffix = true → p ∈ (readPathsRecursive env dir suffix).1) := by
  have key := walkLoop_spec suffix (env.Walk dir) []
  have hnd : ∀ p info, Visit.entry p info ∈ visited (env.Walk dir) → info.IsDir = false →
      HasSuffix info.Name suffix = true → p ∈ (readPathsRecursive env dir suffix).1 := by
    intro p info hv hd hs
    unfold readPathsRecursive
    rw [key, List.nil_append, List.mem_filterMap]
    exact ⟨_, hv, by simp [hd, hs]⟩
  refine ⟨?_, hnd, ?_⟩
  · intro p hp
    unfold readPathsRecursive at hp
    rw [key, List.nil_append, List.mem_filterMap] at hp
    obtain ⟨v, hv, hsome⟩ := hp
    cases v with
    | failed q info err => simp at hsome
    | entry q info =>
      by_cases hc : (!info.IsDir && HasSuffix info.Name suffix) = true
      · simp only [hc, if_true, Option.some.injEq] at hsome
        subst hsome
        simp only [Bool.and_eq_true, Bool.not_eq_true'] at hc
        exact ⟨info, hv, hc.1, hc.2⟩
      · simp [hc] at hsome
  · intro p info hv hr hs
    refine hnd p info hv ?_ hs
    unfold FileInfo.IsRegular at hr
    unfold FileInfo.IsDir
    cases h : info.typ <;> simp_all

/-- C6 (as stated, refuted): over a directory holding a symbolic link named
`a.go`, `readPathsRecursive` returns the path of the link, the only entry
visited under that path, and the link is not a regular file. -/
theorem readPathsRecursive_returns_symlink :
    readPathsRecursive (exampleEnv symlinkWalk) (str "/w/components") (str ".go")
      = ([str "/w/components/a.go"], none) ∧
    visited ((exampleEnv symlinkWalk).Walk (str "/w/components")) = symlinkWalk ∧
    (symlinkWalk.filter (fun v =>
      match v with
      | .entry p info => p == str "/w/components/a.go" && info.IsRegular
      | .failed _ _ _ => false)) = [] := by
  decide

/-! ## Resolving the path -/

theorem getPath_plain (env : Env) (in_ : flags) (dflt p : GoString)
    (hp : (if in_.path = [] then dflt else in_.path) = p)
    (hpre : HasPrefix p (str "~") = false) :
    getPath env in_ dflt =
      match env.Abs p with
      | .error err =>
        if err.notExist then .error (Errorf (([] : GoString) ++ str ": no such file or directory"))
        else .error err
      | .ok a => .ok a := by
  unfold getPath
  simp only [hp, hpre]
  rfl

theorem getPath_home (env : Env) (in_ : flags) (dflt rest hd : GoString)
    (hp : (if in_.path = [] then dflt else in_.path) = str "~" ++ rest)
    (hh : env.UserHomeDir = .ok hd) :
    getPath env in_ dflt =
      match env.Abs (hd ++ rest) with
      | .error err =>
        if err.notExist then .error (Errorf (([] : GoString) ++ str ": no such file or directory"))
        else .error err
      | .ok a => .ok a := by
  have e : str "~" = [126] := by decide
  unfold getPath
  simp only [hp, hh]
  rw [e]
  simp [HasPrefix]

/-- C7 (as the source has it): with an empty `-path` and a default that does
not begin with `~`, `getPath` returns `filepath.Abs` of the default, or an
error when `filepath.Abs` fails.  When the chosen path (the `-path` option, or
the default when the option is empty) is `~` followed by `rest`, `getPath`
returns the error of `os.UserHomeDir` when the home directory is unknown, and
otherwise `filepath.Abs` of the home directory followed by `rest` unchanged,
or an error when `filepath.Abs` fails. -/
theorem getPath_resolve (env : Env) (in_ : flags) (dflt : GoString) :
    (in_.path = [] → HasPrefix dflt (str "~") = false →
      (∀ a, env.Abs dflt = .ok a → getPath env in_ dflt = .ok a) ∧
      (∀ e, env.Abs dflt = .error e → ∃ e', getPath env in_ dflt = .error e')) ∧
    (∀ rest, (if in_.path = [] then dflt else in_.path) = str "~" ++ rest →
      (∀ e, env.UserHomeDir = .error e → getPath env in_ dflt = .error e) ∧
      (∀ hd, env.UserHomeDir = .ok hd →
        (∀ a, env.Abs (hd ++ rest) = .ok a → getPath env in_ dflt = .ok a) ∧
        (∀ e, env.Abs (hd ++ rest) = .error e → ∃ e', getPath env in_ dflt = .error e'))) := by
  refine ⟨?_, ?_⟩
  · intro hpath hpre
    have h := getPath_plain env in_ dflt dflt (by simp [hpath]) hpre
    refine ⟨?_, ?_⟩
    · intro a ha
      rw [h, ha]
    · intro e he
      rw [h, he]
      by_cases hn : e.notExist = true
      · exact ⟨Errorf (([] : GoString) ++ str ": no such file or directory"), by
          simp only [hn, if_true]⟩
      · exact ⟨e, by simp only [hn]; rfl⟩
  · intro rest hrest
    refine ⟨?_, ?_⟩
    · intro e he
      have e1 : str "~" = [126] := by decide
      unfold getPath
      simp only [hrest, he]
      rw [e1]
      simp [HasPrefix]
    · intro hd hh
      have h := getPath_home env in_ dflt rest hd hrest hh
      refine ⟨?_, ?_⟩
      · intro a ha
        rw [h, ha]
      · intro e he
        rw [h, he]
        by_cases hn : e.notExist = true
        · exact ⟨Errorf (([] : GoString) ++ str ": no such file or directory"), by
          simp only [hn, if_true]⟩
        · exact ⟨e, by simp only [hn]; rfl⟩

/-- With working directory `/w` and home `/home/u`: the default `./components`
resolves to `/w/components`, and the option `-path ~/plugins` to
`/home/u/plugins`. -/
theorem getPath_resolve_witness :
    getPath (exampleEnv []) noFlags (str "./components") = .ok (str "/w/components") ∧
    getPath (exampleEnv []) ⟨false, false, false, str "~/plugins"⟩ (str "./components")
      = .ok (str "/home/u/plugins") :=
  ⟨((getPath_resolve (exampleEnv []) noFlags (str "./components")).1 rfl (by decide)).1
      (str "/w/components") (by decide),
   (((getPath_resolve (exampleEnv []) ⟨false, false, false, str "~/plugins"⟩
      (str "./components")).2 (str "/plugins") (by decide)).2 (str "/home/u") rfl).1
      (str "/home/u/plugins") (by decide)⟩

/-- C7 (as stated, refuted): with an empty `-path`, home directory `/home/u`
and working directory `/w`, the default `~/x` resolves to `/home/u/x`, which is
not `filepath.Abs` of the default, `/w/~/x`. -/
theorem getPath_default_home_not_abs :
    noFlags.path = [] ∧
    getPath (exampleEnv []) noFlags (str "~/x") = .ok (str "/home/u/x") ∧
    (exampleEnv []).Abs (str "~/x") = .ok (str "/w/~/x") ∧
    getPath (exampleEnv []) noFlags (str "~/x") ≠ (exampleEnv []).Abs (str "~/x") := by
  decide

/-! ## Computations -/

theorem bind_eq {α β : Type} (m : Proc α) (f : α → Proc β) : (m >>= f) = Proc.bind m f := rfl

theorem pure_eq {α : Type} (a : α) : (pure a : Proc α) = ⟨[], .ret a⟩ := rfl

theorem bind_ret {α β : Type} (ev : List Event) (a : α) (f : α → Proc β) :
    Proc.bind ⟨ev, .ret a⟩ f = ⟨ev ++ (f a).events, (f a).ctl⟩ := rfl

theorem bind_exit {α β : Type} (ev : List Event) (c : Nat) (f : α → Proc β) :
    Proc.bind ⟨ev, .exit c⟩ f = ⟨ev, .exit c⟩ := rfl

theorem echo_eq (in_ : flags) (dot : color) (msg : GoString) :
    echo in_ dot msg
      = ⟨if in_.quiet then []
          else [.stdout (SPrint in_ dot (str "*") ++ str " " ++ msg ++ str "\n")], .ret ()⟩ := by
  unfold echo printOut
  cases in_.quiet <;> rfl

theorem echoErr_eq {α : Type} (in_ : flags) (err : GoError) :
    (echoErr in_ err : Proc α)
      = ⟨if in_.quiet then []
          else [.stdout (SPrint in_ Red (str "* Error: ") ++ str " " ++ err.msg ++ str "\n")],
         .exit 1⟩ := by
  unfold echoErr printOut Exit
  cases in_.quiet <;> rfl

theorem execs_echo_bind {β : Type} (in_ : flags) (dot : color) (msg : GoString)
    (f : Unit → Proc β) :
    (Proc.bind (echo in_ dot msg) f).execs = (f ()).execs ∧
    (Proc.bind (echo in_ dot msg) f).ctl = (f ()).ctl := by
  rw [echo_eq, bind_ret]
  cases in_.quiet <;> simp [Proc.execs]

theorem execs_runCmd_bind {β : Type} (env : Env) (c : Cmd) (f : ExecResult → Proc β) :
    (Proc.bind (runCmd env c) f).execs = c :: (f (env.Run c)).execs ∧
    (Proc.bind (runCmd env c) f).ctl = (f (env.Run c)).ctl := by
  unfold runCmd
  rw [bind_ret]
  simp [Proc.execs]

/-! ## Building components -/

theorem buildLoop_spec (env : Env) (in_ : flags) (path : GoString) (files : List GoString) :
    (buildLoop env in_ path files).execs
      = (files.takeWhile (fun f => (env.Run (buildCmd f)).err.isNone)
          ++ (files.dropWhile (fun f => (env.Run (buildCmd f)).err.isNone)).take 1).map buildCmd ∧
    ∃ r, (buildLoop env in_ path files).ctl = .ret r ∧
      (r.isSome = true ↔ ∃ f ∈ files, (env.Run (buildCmd f)).err.isSome = true) := by
  induction files with
  | nil =>
    refine ⟨rfl, none, rfl, ?_⟩
    simp
  | cons f rest ih =>
    unfold buildLoop
    simp only [bind_eq]
    obtain ⟨e1, c1⟩ := execs_echo_bind in_ Blue
      (str "building component \"" ++ SPrint in_ Green (getName path f) ++ str "\" from " ++ f)
      (fun _ => Proc.bind (runCmd env (buildCmd f)) (fun r =>
        match r.err with
        | some err =>
          pure (some (Errorf (str "failed to build \"" ++ SPrint in_ Green (getName path f)
            ++ str "\": " ++ err.msg ++ str ": " ++ TrimRight r.output 10)))
        | none =>
          Proc.bind (echo in_ Green (str "successfully built \"" ++ SPrint in_ Green (getName path f)
            ++ str "\" to " ++ (TrimSuffix f (str ".go") ++ str ".so")))
            (fun _ => buildLoop env in_ path rest)))
    obtain ⟨e2, c2⟩ := execs_runCmd_bind env (buildCmd f) (fun r =>
        match r.err with
        | some err =>
          pure (some (Errorf (str "failed to build \"" ++ SPrint in_ Green (getName path f)
            ++ str "\": " ++ err.msg ++ str ": " ++ TrimRight r.output 10)))
        | none =>
          Proc.bind (echo in_ Green (str "successfully built \"" ++ SPrint in_ Green (getName path f)
            ++ str "\" to " ++ (TrimSuffix f (str ".go") ++ str ".so")))
            (fun _ => buildLoop env in_ path rest))
    simp only [pure_eq] at e1 c1 e2 c2 ⊢
    rw [e1, c1, e2, c2]
    cases hf : (env.Run (buildCmd f)).err with
    | some err =>
      simp only [hf]
      refine ⟨?_, _, rfl, ?_⟩
      · simp [Proc.execs, List.takeWhile_cons, List.dropWhile_cons, hf]
      · simp [hf]
    | none =>
      simp only [hf]
      obtain ⟨e3, c3⟩ := execs_echo_bind in_ Green
        (str "successfully built \"" ++ SPrint in_ Green (getName path f)
            ++ str "\" to " ++ (TrimSuffix f (str ".go") ++ str ".so"))
        (fun _ => buildLoop env in_ path rest)
      rw [e3, c3]
      obtain ⟨ihe, r, ihc, ihr⟩ := ih
      refine ⟨?_, r, ihc, ?_⟩
      · rw [ihe]
        simp [List.takeWhile_cons, List.dropWhile_cons, hf]
      · rw [ihr]
        simp [hf]

/-- C3: when the listing `files` is not empty, `cmdBuildComponents` runs the
build command on the files in listing order up to and including the first
file whose build fails and on no file after it, and it returns (without exit
or panic) an error exactly when the build of some file fails. -/
theorem cmdBuildComponents_first_failure (env : Env) (in_ : flags) (path : GoString)
    (files : List GoString)
    (hp : getPath env in_ (str "./components") = .ok path)
    (hr : readPathsRecursive env path (str ".go") = (files, none))
    (hne : files ≠ []) :
    (cmdBuildComponents env in_).execs
      = (files.takeWhile (fun f => (env.Run (buildCmd f)).err.isNone)
          ++ (files.dropWhile (fun f => (env.Run (buildCmd f)).err.isNone)).take 1).map buildCmd ∧
    ∃ r, (cmdBuildComponents env in_).ctl = .ret r ∧
      (r.isSome = true ↔ ∃ f ∈ files, (env.Run (buildCmd f)).err.isSome = true) := by
  have hlen : files.length ≠ 0 := fun h => hne (List.length_eq_zero.mp h)
  unfold cmdBuildComponents
  simp only [hp, hr, hlen, if_false, bind_eq]
  obtain ⟨e1, c1⟩ := execs_echo_bind in_ Blue (str "building components from " ++ path)
    (fun _ => Proc.bind (echo in_ Blue (str "found " ++ itoa files.length ++ str " "
      ++ multiSuffix files.length (str "component"))) (fun _ => buildLoop env in_ path files))
  obtain ⟨e2, c2⟩ := execs_echo_bind in_ Blue (str "found " ++ itoa files.length ++ str " "
      ++ multiSuffix files.length (str "component")) (fun _ => buildLoop env in_ path files)
  rw [e1, c1, e2, c2]
  exact buildLoop_spec env in_ path files

/-- Three components, the build of the second one failing: the commands run
are the builds of the first and of the second file only. -/
theorem cmdBuildComponents_first_failure_witness :
    (cmdBuildComponents secondFailsEnv noFlags).execs
      = [buildCmd (str "/w/components/a/main.go"), buildCmd (str "/w/components/b/main.go")] :=
  (cmdBuildComponents_first_failure secondFailsEnv noFlags (str "/w/components")
    [str "/w/components/a/main.go", str "/w/components/b/main.go", str "/w/components/c/main.go"]
    (by decide) (by decide) (by decide)).1.trans (by decide)

/-! ## No components -/

theorem walkLoop_nothing (suffix : GoString) (visits : List Visit) (list : List GoString)
    (h : ∀ v ∈ visits,
      match v with
      | .entry _ info => (!info.IsDir && HasSuffix info.Name suffix) = false
      | .failed _ _ err => err.notExist = true) :
    walkLoop suffix list visits = (list, none) := by
  induction visits with
  | nil => rfl
  | cons v vs ih =>
    have hv := h v (List.mem_cons_self _ _)
    have hvs := ih (fun w hw => h w (List.mem_cons_of_mem _ hw))
    cases v with
    | entry p info =>
      simp only at hv
      simp only [walkLoop, walkFn, hv, Bool.false_eq_true, if_false, hvs]
    | failed p info err =>
      simp only at hv
      simp only [walkLoop, walkFn, hv, if_true, hvs]

/-- C4 (as the source has it): when the components root resolves to `path` and
the walk under it visits no entry that is not a directory and has a name
ending in `.go`, and meets no error other than not-exist errors (a root that
does not exist is the walk of one not-exist error), `readPathsRecursive`
returns the empty list with no error and `cmdBuildComponents` returns the error
`no components found in <path>` with no event at all: nothing printed, no
subprocess started. -/
theorem cmdBuildComponents_no_components (env : Env) (in_ : flags) (path : GoString)
    (hp : getPath env in_ (str "./components") = .ok path)
    (hwalk : ∀ v ∈ env.Walk path,
      match v with
      | .entry _ info => (!info.IsDir && HasSuffix info.Name (str ".go")) = false
      | .failed _ _ err => err.notExist = true) :
    readPathsRecursive env path (str ".go") = ([], none) ∧
    (cmdBuildComponents env in_).events = [] ∧
    (cmdBuildComponents env in_).execs = [] ∧
    (cmdBuildComponents env in_).ctl
      = .ret (some (Errorf (str "no components found in " ++ path))) := by
  have hr : readPathsRecursive env path (str ".go") = ([], none) :=
    walkLoop_nothing (str ".go") (env.Walk path) [] hwalk
  refine ⟨hr, ?_, ?_, ?_⟩ <;>
  · unfold cmdBuildComponents
    simp only [hp, hr]
    rfl

/-- A components root `/w/components` that does not exist. -/
theorem cmdBuildComponents_no_components_witness :
    readPathsRecursive (exampleEnv [.failed (str "/w/components") none errNotExist])
      (str "/w/components") (str ".go") = ([], none) ∧
    (cmdBuildComponents (exampleEnv [.failed (str "/w/components") none errNotExist])
      noFlags).events = [] ∧
    (cmdBuildComponents (exampleEnv [.failed (str "/w/components") none errNotExist])
      noFlags).execs = [] ∧
    (cmdBuildComponents (exampleEnv [.failed (str "/w/components") none errNotExist])
      noFlags).ctl = .ret (some (Errorf (str "no components found in " ++ str "/w/components"))) :=
  cmdBuildComponents_no_components (exampleEnv [.failed (str "/w/components") none errNotExist])
    noFlags (str "/w/components") (by decide)
    (by
      intro v hv
      cases List.mem_singleton.mp hv
      rfl)

/-- C4 (as stated, refuted): the root `/w/components` exists and holds no file
at all, only a subdirectory that cannot be listed; `readPathsRecursive` returns
the permission error and `cmdBuildComponents` fails with
`failed to read /w/components`, not with `no components found`. -/
theorem cmdBuildComponents_unreadable_subdirectory :
    (unreadableWalk.filter (fun v =>
      match v with
      | .entry _ info => !info.IsDir
      | .failed _ _ _ => false)) = [] ∧
    readPathsRecursive (exampleEnv unreadableWalk) (str "/w/components") (str ".go")
      = ([], some errPermission) ∧
    (cmdBuildComponents (exampleEnv unreadableWalk) noFlags).ctl
      = .ret (some (Errorf (str "failed to read /w/components"))) := by
  decide

theorem bind_of_ret {α β : Type} (m : Proc α) (a : α) (f : α → Proc β) (h : m.ctl = .ret a) :
    Proc.bind m f = ⟨m.events ++ (f a).events, (f a).ctl⟩ := by
  unfold Proc.bind
  rw [h]

theorem usage_returns (in_ : flags) : (usage in_).ctl = .ret () := by
  obtain ⟨nc, q, h, p⟩ := in_
  cases nc <;> rfl

theorem usage_execs (in_ : flags) : (usage in_).execs = [] := by
  obtain ⟨nc, q, h, p⟩ := in_
  cases nc <;> rfl

theorem execs_append_events {α β : Type} (m : Proc α) (n : Proc β) (c : Ctl α) :
    (Proc.mk (m.events ++ n.events) c).execs = m.execs ++ n.execs := by
  simp [Proc.execs]

theorem failf_eq (in_ : flags) (msg : GoString) :
    failf in_ msg
      = ⟨Event.stderr (msg ++ str "\n") :: (usage in_).events, .ret (Errorf msg)⟩ := by
  unfold failf printErr
  simp only [bind_eq, bind_ret, pure_eq]
  rw [bind_of_ret (usage in_) () _ (usage_returns in_)]
  simp

theorem failing_step (in_ : flags) (msg : GoString) (fs' : FlagSet) (n : Nat)
    (hin : fs'.in_ = in_) :
    ∃ r, (Proc.bind (failf in_ msg)
        (fun err => (⟨[], .ret ⟨fs', false, some err⟩⟩ : Proc ParseOne))).ctl = .ret r ∧
      (Proc.bind (failf in_ msg)
        (fun err => (⟨[], .ret ⟨fs', false, some err⟩⟩ : Proc ParseOne))).execs = [] ∧
      (r.seen = true → (Proc.bind (failf in_ msg)
          (fun err => (⟨[], .ret ⟨fs', false, some err⟩⟩ : Proc ParseOne))).events = [] ∧
        r.err = none ∧ r.fs.args.length < n) ∧
      (r.err = none → (Proc.bind (failf in_ msg)
        (fun err => (⟨[], .ret ⟨fs', false, some err⟩⟩ : Proc ParseOne))).events = []) ∧
      (∀ e, r.err = some e → ∃ pre, (Proc.bind (failf in_ msg)
          (fun err => (⟨[], .ret ⟨fs', false, some err⟩⟩ : Proc ParseOne))).events
            = pre ++ (usage r.fs.in_).events ∧
          (pre = [] ∨ pre = [.stderr (e.msg ++ str "\n")])) := by
  rw [failf_eq, bind_ret]
  refine ⟨_, rfl, ?_, ?_, ?_, ?_⟩
  · have := usage_execs in_
    simpa [Proc.execs] using this
  · intro h
    cases h
  · intro h
    cases h
  · intro e he
    cases he
    exact ⟨[.stderr (msg ++ str "\n")], by simp [hin], Or.inr rfl⟩

theorem help_step (in_ : flags) (fs' : FlagSet) (n : Nat) (hin : fs'.in_ = in_) :
    ∃ r, (Proc.bind (usage in_)
        (fun _ => (⟨[], .ret ⟨fs', false, some ErrHelp⟩⟩ : Proc ParseOne))).ctl = .ret r ∧
      (Proc.bind (usage in_)
        (fun _ => (⟨[], .ret ⟨fs', false, some ErrHelp⟩⟩ : Proc ParseOne))).execs = [] ∧
      (r.seen = true → (Proc.bind (usage in_)
          (fun _ => (⟨[], .ret ⟨fs', false, some ErrHelp⟩⟩ : Proc ParseOne))).events = [] ∧
        r.err = none ∧ r.fs.args.length < n) ∧
      (r.err = none → (Proc.bind (usage in_)
        (fun _ => (⟨[], .ret ⟨fs', false, some ErrHelp⟩⟩ : Proc ParseOne))).events = []) ∧
      (∀ e, r.err = some e → ∃ pre, (Proc.bind (usage in_)
          (fun _ => (⟨[], .ret ⟨fs', false, some ErrHelp⟩⟩ : Proc ParseOne))).events
            = pre ++ (usage r.fs.in_).events ∧
          (pre = [] ∨ pre = [.stderr (e.msg ++ str "\n")])) := by
  rw [bind_of_ret (usage in_) () _ (usage_returns in_)]
  refine ⟨_, rfl, ?_, ?_, ?_, ?_⟩
  · have := usage_execs in_
    simpa [Proc.execs] using this
  · intro h
    cases h
  · intro h
    cases h
  · intro e _
    exact ⟨[], by simp [hin], Or.inl rfl⟩

theorem stopping_step (fs' : FlagSet) (n : Nat) :
    ∃ r, (pure ⟨fs', false, none⟩ : Proc ParseOne).ctl = .ret r ∧
      (pure ⟨fs', false, none⟩ : Proc ParseOne).execs = [] ∧
      (r.seen = true → (pure ⟨fs', false, none⟩ : Proc ParseOne).events = [] ∧
        r.err = none ∧ r.fs.args.length < n) ∧
      (r.err = none → (pure ⟨fs', false, none⟩ : Proc ParseOne).events = []) ∧
      (∀ e, r.err = some e → ∃ pre, (pure ⟨fs', false, none⟩ : Proc ParseOne).events
            = pre ++ (usage r.fs.in_).events ∧
          (pre = [] ∨ pre = [.stderr (e.msg ++ str "\n")])) := by
  refine ⟨_, rfl, rfl, ?_, fun _ => rfl, ?_⟩
  · intro h
    cases h
  · intro e he
    cases he

theorem seen_step (fs' : FlagSet) (n : Nat) (h : fs'.args.length < n) :
    ∃ r, (pure ⟨fs', true, none⟩ : Proc ParseOne).ctl = .ret r ∧
      (pure ⟨fs', true, none⟩ : Proc ParseOne).execs = [] ∧
      (r.seen = true → (pure ⟨fs', true, none⟩ : Proc ParseOne).events = [] ∧
        r.err = none ∧ r.fs.args.length < n) ∧
      (r.err = none → (pure ⟨fs', true, none⟩ : Proc ParseOne).events = []) ∧
      (∀ e, r.err = some e → ∃ pre, (pure ⟨fs', true, none⟩ : Proc ParseOne).events
            = pre ++ (usage r.fs.in_).events ∧
          (pre = [] ∨ pre = [.stderr (e.msg ++ str "\n")])) := by
  refine ⟨_, rfl, rfl, fun _ => ⟨rfl, rfl, h⟩, fun _ => rfl, ?_⟩
  intro e he
  cases he

/-- The method `parseOne` always returns and starts no subprocess; when it has
seen a flag it has written nothing, returns no error and has consumed at least
one argument; when it returns no error it has written nothing; when it returns
an error it has written the help screen, after the message of the error on
standard error or after nothing. -/
theorem parseOne_spec (env : Env) (fs : FlagSet) :
    ∃ r, (parseOne env fs).ctl = .ret r ∧ (parseOne env fs).execs = [] ∧
      (r.seen = true → (parseOne env fs).events = [] ∧ r.err = none ∧
        r.fs.args.length < fs.args.length) ∧
      (r.err = none → (parseOne env fs).events = []) ∧
      (∀ e, r.err = some e → ∃ pre, (parseOne env fs).events = pre ++ (usage r.fs.in_).events ∧
          (pre = [] ∨ pre = [.stderr (e.msg ++ str "\n")])) := by
  unfold parseOne
  split
  · exact stopping_step _ _
  · rename_i s rest hargs
    have h1 : rest.length < fs.args.length := by
      rw [hargs]
      simp
    split
    · exact stopping_step _ _
    · split
      · exact stopping_step _ _
      · split
        · exact failing_step _ _ _ _ rfl
        · split
          · split
            · exact help_step _ _ _ rfl
            · exact failing_step _ _ _ _ rfl
          · split
            · split
              · exact seen_step _ _ h1
              · split
                · exact seen_step _ _ h1
                · exact failing_step _ _ _ _ rfl
            · split
              · exact seen_step _ _ h1
              · exact seen_step _ _ (by
                  rw [hargs]
                  simp only [List.length_cons]
                  omega)
              · exact failing_step _ _ _ _ rfl

/-- The loop of `fs.Parse` always returns and starts no subprocess; it has
written nothing when it returns no error, and otherwise the help screen, after
the message of the error on standard error or after nothing. -/
theorem parseLoop_spec (env : Env) :
    ∀ (fuel : Nat) (fs : FlagSet),
      ∃ p, (parseLoop env fuel fs).ctl = .ret p ∧ (parseLoop env fuel fs).execs = [] ∧
        (p.err = none → (parseLoop env fuel fs).events = []) ∧
        (∀ e, p.err = some e → ∃ pre,
          (parseLoop env fuel fs).events = pre ++ (usage p.in_).events ∧
          (pre = [] ∨ pre = [.stderr (e.msg ++ str "\n")])) := by
  intro fuel
  induction fuel with
  | zero =>
    intro fs
    refine ⟨_, rfl, rfl, fun _ => rfl, ?_⟩
    intro e he
    cases he
  | succ n ih =>
    intro fs
    obtain ⟨r, hr, hex, hseen, hnone, hsome⟩ := parseOne_spec env fs
    have hb : parseLoop env (n + 1) fs
        = Proc.bind (parseOne env fs) (fun r =>
            if r.seen = true then parseLoop env n r.fs
            else ⟨[], .ret ⟨r.fs.in_, r.fs.args, r.err⟩⟩) := rfl
    rw [hb, bind_of_ret _ r _ hr]
    by_cases hs : r.seen = true
    · obtain ⟨p, hp, hpex, hpnone, hpsome⟩ := ih r.fs
      simp only [hs, if_true]
      refine ⟨p, hp, ?_, ?_, ?_⟩
      · simp only [Proc.execs, List.filterMap_append] at hex hpex ⊢
        rw [hex, hpex]
        rfl
      · intro h
        rw [(hseen hs).1, hpnone h]
        rfl
      · intro e he
        obtain ⟨pre, hev, hpre⟩ := hpsome e he
        exact ⟨pre, by rw [(hseen hs).1, hev]; rfl, hpre⟩
    · simp only [hs]
      refine ⟨_, rfl, ?_, ?_, ?_⟩
      · simp only [Proc.execs, List.filterMap_append] at hex ⊢
        rw [hex]
        rfl
      · intro h
        rw [hnone h]
        rfl
      · intro e he
        obtain ⟨pre, hev, hpre⟩ := hsome e he
        exact ⟨pre, by rw [hev]; simp, hpre⟩

/-- More turns than `fs.Parse` gives its loop change nothing: with more turns
than there are arguments the loop ends before its turns run out. -/
theorem parseLoop_fuel (env : Env) :
    ∀ (m : Nat) (fs : FlagSet), fs.args.length < m →
      ∀ a b, fs.args.length < a → fs.args.length < b →
        parseLoop env a fs = parseLoop env b fs := by
  intro m
  induction m with
  | zero =>
    intro fs h
    omega
  | succ m ih =>
    intro fs h a b ha hb
    obtain ⟨a', rfl⟩ : ∃ a', a = a' + 1 := ⟨a - 1, by omega⟩
    obtain ⟨b', rfl⟩ : ∃ b', b = b' + 1 := ⟨b - 1, by omega⟩
    obtain ⟨r, hr, _, hseen, _⟩ := parseOne_spec env fs
    have hb : ∀ k, parseLoop env (k + 1) fs
        = Proc.bind (parseOne env fs) (fun r =>
            if r.seen = true then parseLoop env k r.fs
            else ⟨[], .ret ⟨r.fs.in_, r.fs.args, r.err⟩⟩) := fun _ => rfl
    rw [hb a', hb b', bind_of_ret _ r _ hr, bind_of_ret _ r _ hr]
    by_cases hs : r.seen = true
    · have hlt := (hseen hs).2.2
      simp only [hs, if_true]
      rw [ih r.fs (by omega) a' b' (by omega) (by omega)]
    · simp only [hs, Bool.false_eq_true, if_false]

/-- The call `fs.Parse` is the loop over `parseOne` run to its end: any number
of turns above the number of arguments gives the same result. -/
theorem Parse_fuel (env : Env) (in_ : flags) (arguments : List GoString) (fuel : Nat)
    (h : arguments.length < fuel) :
    parseLoop env fuel ⟨in_, arguments⟩ = Parse env in_ arguments :=
  parseLoop_fuel env (arguments.length + 1) ⟨in_, arguments⟩ (Nat.lt_succ_self _) fuel
    (arguments.length + 1) h (Nat.lt_succ_self _)

/-- The call `fs.Parse` always returns and starts no subprocess; it has written
nothing when it returns no error, and otherwise the help screen, after the
message of the error on standard error or (for `-h`) after nothing. -/
theorem Parse_spec (env : Env) (in_ : flags) (arguments : List GoString) :
    ∃ p, (Parse env in_ arguments).ctl = .ret p ∧ (Parse env in_ arguments).execs = [] ∧
      (p.err = none → (Parse env in_ arguments).events = []) ∧
      (∀ e, p.err = some e → ∃ pre,
        (Parse env in_ arguments).events = pre ++ (usage p.in_).events ∧
        (pre = [] ∨ pre = [.stderr (e.msg ++ str "\n")])) :=
  parseLoop_spec env _ _

/-! ## Dispatch -/

theorem command_names :
    commands.map (fun c => c.name)
      = [str "create-app", str "create-component", str "build-components"] := rfl

theorem findCommand_unknown (name : GoString) (cmds : List command)
    (h : name ∉ cmds.map (fun c => c.name)) :
    findCommand name cmds = .error (Errorf (str "unknown command \"" ++ name ++ str "\"")) := by
  induction cmds with
  | nil => rfl
  | cons c rest ih =>
    simp only [List.map_cons, List.mem_cons, not_or] at h
    have hc : ¬ c.name = name := fun e => h.1 e.symm
    simp only [findCommand, hc, if_false]
    exact ih h.2

theorem main_eq (env : Env) (osArgs : List GoString) :
    main env osArgs = Proc.bind (Parse env noFlags osArgs) (fun p =>
      if Arg p.args 0 = [] ∨ p.in_.help = true then usage p.in_
      else
        match getCommand (Arg p.args 0) with
        | .error err => echoErr p.in_ err
        | .ok cmd =>
          Proc.bind (cmd.exec env p.in_ p.args) (fun r =>
            match r with
            | some err => echoErr p.in_ err
            | none => pure ())) := rfl

/-- C1 (as the source has it): let `fs.Parse` on the command line return with
the flag values `p.in_` and the positional arguments `p.args`, the first of
which is a non-empty name that is not a registered command name.  `fs.Parse`
has written nothing when every flag parsed, and otherwise the help screen after
the flag error.  Then without `-help`, `main` writes after that nothing under
`-quiet` and otherwise the one line made of the `* Error: ` marker (coloured
unless `-no-color`) and `unknown command "<name>"`; it starts no subprocess and
exits with code 1.  With `-help`, `main` writes the help screen after what
`fs.Parse` wrote, starts no subprocess and returns, so the exit code is 0. -/
theorem main_unknown_command (env : Env) (osArgs : List GoString) (p : Parsed)
    (hparse : (Parse env noFlags osArgs).ctl = .ret p)
    (hne : Arg p.args 0 ≠ [])
    (hreg : Arg p.args 0 ∉ commands.map (fun c => c.name)) :
    (p.err = none → (Parse env noFlags osArgs).events = []) ∧
    (∀ e, p.err = some e → ∃ pre,
      (Parse env noFlags osArgs).events = pre ++ (usage p.in_).events ∧
      (pre = [] ∨ pre = [.stderr (e.msg ++ str "\n")])) ∧
    (p.in_.help = false →
      (main env osArgs).events = (Parse env noFlags osArgs).events ++
        (if p.in_.quiet then []
         else [.stdout (SPrint p.in_ Red (str "* Error: ") ++ str " "
            ++ (str "unknown command \"" ++ Arg p.args 0 ++ str "\"") ++ str "\n")]) ∧
      (main env osArgs).execs = [] ∧
      (main env osArgs).ctl = .exit 1 ∧
      (main env osArgs).exitCode = 1) ∧
    (p.in_.help = true →
      (main env osArgs).events = (Parse env noFlags osArgs).events ++ (usage p.in_).events ∧
      (main env osArgs).execs = [] ∧
      (main env osArgs).exitCode = 0) := by
  obtain ⟨p', hp', hex, hnone, hsome⟩ := Parse_spec env noFlags osArgs
  have hpp : p' = p := by
    rw [hparse] at hp'
    exact (Ctl.ret.inj hp').symm
  subst hpp
  refine ⟨hnone, hsome, ?_, ?_⟩
  · intro hh
    have hm : main env osArgs
        = ⟨(Parse env noFlags osArgs).events ++
            (echoErr p'.in_ (Errorf (str "unknown command \"" ++ Arg p'.args 0 ++ str "\""))
              : Proc Unit).events,
           (echoErr p'.in_ (Errorf (str "unknown command \"" ++ Arg p'.args 0 ++ str "\""))
              : Proc Unit).ctl⟩ := by
      rw [main_eq, bind_of_ret _ p' _ hparse]
      unfold getCommand
      simp only [hne, hh, Bool.false_eq_true, or_self, if_false, findCommand_unknown _ _ hreg]
    rw [hm, echoErr_eq]
    refine ⟨rfl, ?_, rfl, rfl⟩
    simp only [Proc.execs, List.filterMap_append] at hex ⊢
    rw [hex]
    cases p'.in_.quiet <;> rfl
  · intro hh
    have hm : main env osArgs
        = ⟨(Parse env noFlags osArgs).events ++ (usage p'.in_).events, (usage p'.in_).ctl⟩ := by
      rw [main_eq, bind_of_ret _ p' _ hparse]
      simp only [hh, or_true, if_true]
    rw [hm]
    refine ⟨rfl, ?_, ?_⟩
    · have hu := usage_execs p'.in_
      simp only [Proc.execs, List.filterMap_append] at hex hu ⊢
      rw [hex, hu]
      rfl
    · unfold Proc.exitCode
      simp only [usage_returns]

/-- The command line `gotrix -quiet -bogus foo`: `fs.Parse` sets `-quiet`,
writes the flag error and the help screen, and leaves `foo` as the first
positional argument; `main` then writes nothing more and exits with code 1. -/
theorem main_unknown_command_witness :
    (main (exampleEnv []) [str "-quiet", str "-bogus", str "foo"]).events
      = .stderr (str "flag provided but not defined: -bogus\n") :: (usage quietFlags).events ∧
    (main (exampleEnv []) [str "-quiet", str "-bogus", str "foo"]).execs = [] ∧
    (main (exampleEnv []) [str "-quiet", str "-bogus", str "foo"]).ctl = .exit 1 ∧
    (main (exampleEnv []) [str "-quiet", str "-bogus", str "foo"]).exitCode = 1 :=
  (main_unknown_command (exampleEnv []) [str "-quiet", str "-bogus", str "foo"]
    ⟨quietFlags, [str "foo"], some (Errorf (str "flag provided but not defined: -bogus"))⟩
    (by decide) (by decide) (by decide)).2.2.1 rfl

/-- C1 (as stated, refuted): on the command line `gotrix -help foo` every flag
parses, the first positional argument `foo` is not a registered command, yet
`main` prints the help screen, not the error line, and the exit code is 0. -/
theorem main_help_unknown_command :
    (Parse (exampleEnv []) noFlags [str "-help", str "foo"]).ctl
      = .ret ⟨helpFlags, [str "foo"], none⟩ ∧
    Arg [str "foo"] 0 = str "foo" ∧
    str "foo" ∉ commands.map (fun c => c.name) ∧
    (main (exampleEnv []) [str "-help", str "foo"]).exitCode = 0 ∧
    (main (exampleEnv []) [str "-help", str "foo"]).events = (usage helpFlags).events ∧
    Event.stdout (str "\x1b[31m* Error: \x1b[0m unknown command \"foo\"\n")
      ∉ (main (exampleEnv []) [str "-help", str "foo"]).events := by
  decide

/-- C8 (the source fails here): on the command line `gotrix -quiet create-app`,
in every environment, `fs.Parse` sets `-quiet` and writes nothing, and `main`
writes the usage message of `create-app` to standard error and exits with code
2; and on `gotrix -quiet` it writes the help screen to standard output. -/
theorem main_quiet_prints_usage (env : Env) :
    Parse env noFlags [str "-quiet", str "create-app"]
      = ⟨[], .ret ⟨quietFlags, [str "create-app"], none⟩⟩ ∧
    (main env [str "-quiet", str "create-app"]).events
      = [.stderr (str "Usage:\n\n  \x1b[33mgotrix\x1b[0m \x1b[34mcreate-app\x1b[0m [application name]\n")] ∧
    (main env [str "-quiet", str "create-app"]).exitCode = 2 ∧
    Parse env noFlags [str "-quiet"] = ⟨[], .ret ⟨quietFlags, [], none⟩⟩ ∧
    (main env [str "-quiet"]).printed.take 1 = [str "Usage:\n"] := by
  refine ⟨?_, ?_, ?_, ?_, ?_⟩ <;> rfl

end Gotrix
